import Mathlib

/-!
# tarsync: streaming a bucket into a tar archive

A shallow embedding of `src/tarsync/tar.go` (`tarBucket`, `listBucket`) and the
properties of its three-stage pipeline: the key enumerator, the pool of fetch
workers and the archive serializer.

Go values are embedded as follows.
* Strings are `String`; byte counts (`int64` content lengths, never negative and
  never used in arithmetic by the program) are `Nat`; bytes are `Nat`.
* Pointers that the program dereferences on a path where they may be nil
  (`resp`, `resp.ContentLength`) are `Option`.
* The goroutines of `tarBucket` are a step function over one state, indexed by
  the goroutine that moves; a schedule is a list of goroutines.
* The object store, the compressor, the output sink and the archive writer are
  libraries outside the repository; they are parameters or small models, each
  marked as such.
-/

namespace Tarsync

/-! ## Definitions: the program, its libraries and the notions used to state its properties -/

abbrev Byte := Nat

abbrev Time := Nat

/-- Number of fetch workers, `const S3_WORKERS = 10`. -/
def S3_WORKERS : Nat := 10

/-- Capacity of the key queue, `make(chan string, 1000)`. -/
def workChanCap : Nat := 1000

/-- Page size asked of the store, `MaxKeys: aws.Integer(500)`, and the bound that
`listBucket` compares `len(list.Contents)` with. -/
def pageSize : Nat := 500

/-- Go `strings.HasSuffix`. -/
def HasSuffix (s suffix : String) : Bool :=
  suffix.data.isSuffixOf s.data

/-- One element of `list.Contents`; the store always names a listed object. -/
structure Object where
  Key : String
deriving DecidableEq, Repr

/-- Request type `awss3.ListObjectsRequest` (the fields the program sets). `Marker` is a
pointer in Go and is passed on without being dereferenced. -/
structure ListObjectsRequest where
  MaxKeys : Nat
  Bucket : String
  Marker : Option String
deriving DecidableEq, Repr

/-- Response type `awss3.ListObjectsOutput` (the fields the program reads). -/
structure ListObjectsOutput where
  Contents : List Object
  NextMarker : Option String
deriving DecidableEq, Repr

/-- Request type `awss3.GetObjectRequest`. -/
structure GetObjectRequest where
  Key : String
  Bucket : String
deriving DecidableEq, Repr

/-- An `io.ReadCloser` over an object body: the chunks successive `Read` calls deliver, then
end of file (`readErr = none`) or a read error. -/
structure ReadCloser where
  chunks : List (List Byte)
  readErr : Option String
deriving DecidableEq, Repr

/-- All bytes the stream delivers. -/
def ReadCloser.content (r : ReadCloser) : List Byte :=
  r.chunks.flatten

/-- Response type `awss3.GetObjectOutput` (the fields the program reads). `ContentLength` is
a pointer (`aws.IntegerValue`) that the program dereferences. -/
structure GetObjectOutput where
  ContentLength : Option Nat
  Body : ReadCloser
deriving DecidableEq, Repr

/-- The pair `(resp, err)` returned by `s3.GetObject`. -/
structure GetObjectResult where
  resp : Option GetObjectOutput
  err : Option String
deriving DecidableEq, Repr

/-- The store handle `s3`. A response may depend on the request and on how many calls of
the same kind were made before it (first argument), so that a fetch can fail and later
succeed. -/
structure S3 where
  ListObjects : Nat → ListObjectsRequest → Except String ListObjectsOutput
  GetObject : Nat → GetObjectRequest → GetObjectResult

/-- Modelled from the spec: the output sink `w`, "any writable byte destination ...
exposed as a sequential write target with a close/finalize operation". It keeps the
bytes received; `limit` is the number of bytes it accepts before writes start to fail
(`none`: it never fails). -/
structure Sink where
  data : List Byte
  limit : Option Nat
  closed : Bool
deriving DecidableEq, Repr

/-- Modelled from the spec: `w.Write(p)`, giving the sink, the count written and the
error. A write that does not fit stores what fits and fails. -/
def Sink.Write (w : Sink) (p : List Byte) : Sink × Nat × Option String :=
  if w.closed then (w, 0, some "write: file already closed")
  else
    match w.limit with
    | none => ({ w with data := w.data ++ p }, p.length, none)
    | some cap =>
      if w.data.length + p.length ≤ cap then
        ({ w with data := w.data ++ p }, p.length, none)
      else
        ({ w with data := w.data ++ p.take (cap - w.data.length) },
          cap - w.data.length, some "write: no space left on device")

/-- Modelled from the spec: `w.Close()`. -/
def Sink.Close (w : Sink) : Sink :=
  { w with closed := true }

/-- Modelled from the spec: the compression wrapper (`compress/gzip`), as a parameter.
The compressor state is a byte string; `write z p` consumes `p` and gives the new
state and the bytes emitted to the sink, `close z` gives the bytes emitted by
`Close`, and `gunzip` is the matching decompressor. -/
structure Gzip where
  init : List Byte
  write : List Byte → List Byte → List Byte × List Byte
  close : List Byte → List Byte
  gunzip : List Byte → Option (List Byte)

/-- An archive header, `tar.Header` (the fields the program sets). -/
structure Header where
  Name : String
  Mode : Nat
  Size : Nat
  ModTime : Time
  ChangeTime : Time
  AccessTime : Time
deriving DecidableEq, Repr

/-- The libraries the serializer is linked with: the compressor and the encoding of an
archive header as bytes. -/
structure Lib where
  gz : Gzip
  encodeHeader : Header → List Byte

/-- The writer the archive is written to: the sink itself (`gzw = none`) or a gzip
writer around it, in state `z` (`gzw = some z`). -/
structure Out where
  w : Sink
  gzw : Option (List Byte)
deriving DecidableEq, Repr

/-- Writer selection of `tarBucket`: `gzip.NewWriter(w)` when `compress`, else `w`. -/
def Out.new (gz : Gzip) (w : Sink) (compress : Bool) : Out :=
  if compress then { w := w, gzw := some gz.init } else { w := w, gzw := none }

/-- One `Write(p)` on the selected writer: straight to the sink, or through the
compressor, whose emitted bytes go to the sink. -/
def Out.Write (gz : Gzip) (o : Out) (p : List Byte) : Out × Nat × Option String :=
  match o.gzw with
  | none =>
    let r := o.w.Write p
    ({ o with w := r.1 }, r.2.1, r.2.2)
  | some z =>
    let c := gz.write z p
    let r := o.w.Write c.2
    ({ w := r.1, gzw := some c.1 }, (if r.2.2 = none then p.length else 0), r.2.2)

/-- The deferred `gzw.Close()`: the compressor emits its final bytes. The error is
discarded by the caller, so none is returned. Nothing happens without a compressor. -/
def Out.CloseGz (gz : Gzip) (o : Out) : Out :=
  match o.gzw with
  | none => o
  | some z => { o with w := (o.w.Write (gz.close z)).1 }

/-- One entry of the archive: the header written and the body bytes written under it. -/
structure Entry where
  hdr : Header
  body : List Byte
deriving DecidableEq, Repr

/-- Modelled from the spec: the archive writer, Go's `tar.Writer` ("per entry: name, octal
permission mode, byte size, three equal timestamps, then exactly size content bytes,
padded to the format's block boundary; stream terminated by the format's standard
end-of-archive marker"). `nb` is the number of body bytes the current entry still
expects, `pad` its padding, `err` the sticky error. `entries` records what the archive
holds: each header written and the body bytes written after it. -/
structure TarWriter where
  w : Out
  nb : Nat
  pad : Nat
  err : Option String
  closed : Bool
  entries : List Entry
deriving DecidableEq, Repr

/-- Block size of the archive format. -/
def blockSize : Nat := 512

/-- A run of zero bytes. -/
def zeroBlock (n : Nat) : List Byte :=
  List.replicate n 0

def ErrWriteTooLong : String := "archive/tar: write too long"

def ErrWriteAfterClose : String := "archive/tar: write after close"

def ErrMissedWriting : String := "archive/tar: missed writing bytes"

def ErrShortWrite : String := "short write"

/-- Modelled from the spec: `tar.NewWriter`. -/
def TarWriter.new (o : Out) : TarWriter :=
  { w := o, nb := 0, pad := 0, err := none, closed := false, entries := [] }

/-- Body bytes written go under the most recent header. -/
def appendBody : List Entry → List Byte → List Entry
  | [], _ => []
  | [e], b => [{ e with body := e.body ++ b }]
  | e :: es, b => e :: appendBody es b

/-- Modelled from the spec: `tw.Flush()`, which finishes the current entry: it is an error
if the entry still expects body bytes, else the padding is written. -/
def TarWriter.Flush (lib : Lib) (tw : TarWriter) : TarWriter :=
  if 0 < tw.nb then { tw with err := some ErrMissedWriting }
  else if 0 < tw.pad then
    let r := tw.w.Write lib.gz (zeroBlock tw.pad)
    { tw with w := r.1, err := r.2.2, nb := 0, pad := 0 }
  else { tw with nb := 0, pad := 0 }

/-- Modelled from the spec: `tw.WriteHeader(hdr)`: finish the previous entry, then write the
header block and expect `hdr.Size` body bytes. -/
def TarWriter.WriteHeader (lib : Lib) (tw : TarWriter) (hdr : Header) :
    TarWriter × Option String :=
  if tw.closed then (tw, some ErrWriteAfterClose)
  else
    let tw1 := if tw.err = none then tw.Flush lib else tw
    match tw1.err with
    | some e => (tw1, some e)
    | none =>
      let r := tw1.w.Write lib.gz (lib.encodeHeader hdr)
      ({ tw1 with
          w := r.1
          nb := hdr.Size
          pad := (blockSize - hdr.Size % blockSize) % blockSize
          err := r.2.2
          entries := if r.2.2 = none then tw1.entries ++ [{ hdr := hdr, body := [] }]
                     else tw1.entries },
        r.2.2)

/-- Modelled from the spec: `tw.Write(b)`: at most `nb` bytes are written to the current
entry ("exactly size content bytes"); asking for more writes what the entry still
expects and fails with `ErrWriteTooLong`. -/
def TarWriter.Write (lib : Lib) (tw : TarWriter) (b : List Byte) :
    TarWriter × Nat × Option String :=
  if tw.closed then (tw, 0, some ErrWriteTooLong)
  else
    let overwrite : Bool := decide (tw.nb < b.length)
    let b1 := if overwrite then b.take tw.nb else b
    let r := tw.w.Write lib.gz b1
    let tw1 := { tw with
      w := r.1
      nb := tw.nb - r.2.1
      entries := appendBody tw.entries (b1.take r.2.1) }
    if r.2.2 = none ∧ overwrite = true then (tw1, r.2.1, some ErrWriteTooLong)
    else ({ tw1 with err := r.2.2 }, r.2.1, r.2.2)

/-- Modelled from the spec: `tw.Close()`: finish the current entry and write the end-of-archive
marker (two zero blocks); the error, if any, is returned. -/
def TarWriter.Close (lib : Lib) (tw : TarWriter) : TarWriter × Option String :=
  if tw.err ≠ none ∨ tw.closed = true then (tw, tw.err)
  else
    let tw1 := { (tw.Flush lib) with closed := true }
    match tw1.err with
    | some e => (tw1, some e)
    | none =>
      let r1 := tw1.w.Write lib.gz (zeroBlock blockSize)
      match r1.2.2 with
      | some e => ({ tw1 with w := r1.1, err := some e }, some e)
      | none =>
        let r2 := r1.1.Write lib.gz (zeroBlock blockSize)
        ({ tw1 with w := r2.1, err := r2.2.2 }, r2.2.2)

/-- Modelled from the spec: the copy of a record's stream into the output, which the
program does with Go's `io.Copy(tarIo, file.Body)`. This is its loop over the chunks
read: each non-empty chunk is written; the first write error or short write stops the
copy. Nothing here looks at the declared length: the copy ends when the stream does. -/
def copyChunks (lib : Lib) : TarWriter → List (List Byte) → TarWriter × Option String
  | tw, [] => (tw, none)
  | tw, c :: cs =>
    if c.length = 0 then copyChunks lib tw cs
    else
      let r := tw.Write lib c
      match r.2.2 with
      | some ew => (r.1, some ew)
      | none =>
        if r.2.1 ≠ c.length then (r.1, some ErrShortWrite)
        else copyChunks lib r.1 cs

/-- Modelled from the spec: Go's `io.Copy(tarIo, src)`, which copies until end of file on
`src` or the first error, and returns that error. -/
def ioCopy (lib : Lib) (tw : TarWriter) (src : ReadCloser) : TarWriter × Option String :=
  let r := copyChunks lib tw src.chunks
  match r.2 with
  | some e => (r.1, some e)
  | none => (r.1, src.readErr)

/-- The record a worker hands to the serializer, `type fileInfo struct`. -/
structure fileInfo where
  Name : String
  Size : Nat
  Body : ReadCloser
deriving DecidableEq, Repr

/-- Mode selection of the serializer (lines 114-119). -/
def fmodeOf (name : String) : Nat :=
  if HasSuffix name "/" then 0o755 else 0o644

/-- The header the serializer builds for a record (lines 120-127). -/
def headerOf (modstamp : Time) (file : fileInfo) : Header :=
  { Name := file.Name
    Mode := fmodeOf file.Name
    Size := file.Size
    ModTime := modstamp
    ChangeTime := modstamp
    AccessTime := modstamp }

/-- Body of the serializer loop for one received record (lines 114-132): write the header
(its result is not looked at), copy the body with `io.Copy`, close the body. The second
component is the message of `log.Fatalln` when the copy fails. -/
def serveRecord (lib : Lib) (modstamp : Time) (tarIo : TarWriter) (file : fileInfo) :
    TarWriter × Option String :=
  let tw1 := (tarIo.WriteHeader lib (headerOf modstamp file)).1
  let r := ioCopy lib tw1 file.Body
  match r.2 with
  | some err => (r.1, some ("Failed to write tarfile " ++ err))
  | none => (r.1, none)

/-- End of `tarBucket` (lines 135-136): `err = tarIo.Close(); return`, after which the
deferred `gzw.Close()` runs. The second component is the error returned. -/
def finish (lib : Lib) (tarIo : TarWriter) : TarWriter × Option String :=
  let r := tarIo.Close lib
  ({ r.1 with w := r.1.w.CloseGz lib.gz }, r.2)

/-- How the process stands: still running, ended by `log.Fatalln`, ended by a run-time
panic, or `tarBucket` has returned `err`. -/
inductive Status where
  | running
  | fatal (msg : String)
  | panicked (msg : String)
  | returned (err : Option String)
deriving DecidableEq, Repr

/-- Control point of the `listBucket` goroutine: about to call `s3.ListObjects` with marker
`next`; inside the loop over `list.Contents` with `rest` still to visit (`len` is
`len(list.Contents)`); or returned, after `close(workChan)`. -/
inductive Lister where
  | request (next : Option String)
  | push (next : Option String) (rest : List Object) (len : Nat)
  | done
deriving DecidableEq, Repr

/-- Control point of a fetch worker: waiting in `for key := range workChan`; about to call
`s3.GetObject` for `key`; in the `"EOF"` case, about to run `workChan <- key` (`resp` is
what the failed call returned); about to run `doneChan <- fi`; or past `wg.Done()`. -/
inductive Worker where
  | idle
  | fetching (key : String)
  | requeue (key : String) (resp : Option GetObjectOutput)
  | handing (fi : fileInfo)
  | exited
deriving DecidableEq, Repr

/-- The goroutines of `tarBucket`: `listBucket`, worker `i`, the goroutine that waits for
the workers and closes `doneChan`, and the main goroutine (the serializer). -/
inductive Actor where
  | lister
  | worker (i : Nat)
  | supervisor
  | main
deriving DecidableEq, Repr

/-- What `tarBucket` is given and linked with: the store handle, the bucket name and the
libraries. -/
structure Env where
  s3 : S3
  bucket : String
  lib : Lib

/-- State of a run of `tarBucket`. `now` is the clock; `listReqs` are the page requests
issued so far and `nGet` the number of `GetObject` calls so far; `workChan` is the key
queue (oldest first); `modstamp` is `none` until the main goroutine has run
`modstamp := time.Now()`; `handed` are the records received from `doneChan` so far. -/
structure State where
  status : Status
  now : Time
  lister : Lister
  listReqs : List ListObjectsRequest
  workChan : List String
  workClosed : Bool
  workers : List Worker
  nGet : Nat
  doneClosed : Bool
  modstamp : Option Time
  handed : List fileInfo
  tarIo : TarWriter
deriving DecidableEq, Repr

/-- Outcome of a send on the key queue. -/
inductive SendResult where
  | panic
  | blocked
  | sent (q : List String)
deriving DecidableEq, Repr

/-- Go channel send `workChan <- key` on a buffered channel of capacity 1000: a send on a
closed channel panics, a send on a full channel blocks. -/
def chanSend (q : List String) (closed : Bool) (key : String) : SendResult :=
  if closed then .panic
  else if q.length < workChanCap then .sent (q ++ [key])
  else .blocked

/-- The record literal of lines 90-94, `&fileInfo{Name: key, Size: *resp.ContentLength,
Body: resp.Body}`; `none` when `resp` or `resp.ContentLength` is nil (nil dereference). -/
def mkFileInfo (key : String) (resp : Option GetObjectOutput) : Option fileInfo :=
  match resp with
  | none => none
  | some r =>
    match r.ContentLength with
    | none => none
    | some n => some { Name := key, Size := n, Body := r.Body }

/-- Lines 90-95 for worker `i`: build the record and go on to `doneChan <- fi`. -/
def buildInfo (s : State) (i : Nat) (key : String) (resp : Option GetObjectOutput) : State :=
  match mkFileInfo key resp with
  | none => { s with status := .panicked "invalid memory address or nil pointer dereference" }
  | some fi => { s with workers := s.workers.set i (.handing fi) }

/-- The page request of `listBucket` (lines 142-146). -/
def listRequest (env : Env) (next : Option String) : ListObjectsRequest :=
  { MaxKeys := pageSize, Bucket := env.bucket, Marker := next }

/-- One move of `listBucket` (lines 139-162); `none` when it is blocked or has returned. -/
def listBucket (env : Env) (s : State) : Option State :=
  match s.lister with
  | .request next =>
    match env.s3.ListObjects s.listReqs.length (listRequest env next) with
    | .error e =>
      some { s with
        status := .fatal ("Failed to list bucket " ++ e)
        listReqs := s.listReqs ++ [listRequest env next] }
    | .ok list =>
      some { s with
        lister := .push list.NextMarker list.Contents list.Contents.length
        listReqs := s.listReqs ++ [listRequest env next] }
  | .push next [] len =>
    if len < pageSize then some { s with lister := .done, workClosed := true }
    else some { s with lister := .request next }
  | .push next (i :: rest) len =>
    if HasSuffix i.Key "/" then some { s with lister := .push next rest len }
    else
      match chanSend s.workChan s.workClosed i.Key with
      | .panic => some { s with status := .panicked "send on closed channel" }
      | .blocked => none
      | .sent q => some { s with workChan := q, lister := .push next rest len }
  | .done => none

/-- One move of fetch worker `i` (lines 74-98); `none` when it is blocked or has exited.
The hand-over `doneChan <- fi` is a rendezvous with the serializer, which serves the
record in the same move: nothing else touches the archive writer. -/
def fetchWorker (env : Env) (s : State) (i : Nat) : Option State :=
  match s.workers[i]? with
  | none => none
  | some .idle =>
    match s.workChan with
    | key :: q => some { s with workChan := q, workers := s.workers.set i (.fetching key) }
    | [] => if s.workClosed then some { s with workers := s.workers.set i .exited } else none
  | some (.fetching key) =>
    let r := env.s3.GetObject s.nGet { Key := key, Bucket := env.bucket }
    match r.err with
    | some e =>
      if e = "EOF" then
        some { s with nGet := s.nGet + 1, workers := s.workers.set i (.requeue key r.resp) }
      else some { s with nGet := s.nGet + 1, status := .fatal ("Found error %s " ++ e) }
    | none => some (buildInfo { s with nGet := s.nGet + 1 } i key r.resp)
  | some (.requeue key resp) =>
    match chanSend s.workChan s.workClosed key with
    | .panic => some { s with status := .panicked "send on closed channel" }
    | .blocked => none
    | .sent q => some (buildInfo { s with workChan := q } i key resp)
  | some (.handing fi) =>
    if s.doneClosed then some { s with status := .panicked "send on closed channel" }
    else
      match s.modstamp with
      | none => none
      | some t =>
        let r := serveRecord env.lib t s.tarIo fi
        some { s with
          tarIo := r.1
          handed := s.handed ++ [fi]
          workers := s.workers.set i .idle
          status := match r.2 with
            | some msg => .fatal msg
            | none => .running }
  | some .exited => none

/-- The goroutine of lines 101-104: `wg.Wait()` returns once every worker has called
`wg.Done()`, then `close(doneChan)`. -/
def supervisor (s : State) : Option State :=
  if s.workers.all (fun w => decide (w = .exited)) ∧ s.doneClosed = false then
    some { s with doneClosed := true }
  else none

/-- The main goroutine from line 108 on: capture `modstamp` once; then, when `doneChan`
is closed, leave the loop and finish. Receiving a record is the rendezvous move of the
worker that hands it over. -/
def mainLoop (env : Env) (s : State) : Option State :=
  match s.modstamp with
  | none => some { s with modstamp := some s.now }
  | some _ =>
    if s.doneClosed then
      let r := finish env.lib s.tarIo
      some { s with tarIo := r.1, status := .returned r.2 }
    else none

/-- One move of goroutine `a`; time passes with every move. Nothing moves once the process
has ended. -/
def step (env : Env) (s : State) (a : Actor) : Option State :=
  if s.status ≠ .running then none
  else
    (match a with
      | .lister => listBucket env s
      | .worker i => fetchWorker env s i
      | .supervisor => supervisor s
      | .main => mainLoop env s).map (fun t : State => { t with now := t.now + 1 })

/-- State at the start of `tarBucket(s3, bucket, w, compress)`, with the goroutines
started and the clock at `t0`. -/
def tarBucket (env : Env) (w : Sink) (compress : Bool) (t0 : Time) : State :=
  { status := .running
    now := t0
    lister := .request (some "")
    listReqs := []
    workChan := []
    workClosed := false
    workers := List.replicate S3_WORKERS .idle
    nGet := 0
    doneClosed := false
    modstamp := none
    handed := []
    tarIo := TarWriter.new (Out.new env.lib.gz w compress) }

/-- Run a schedule: each goroutine named moves if it can. -/
def run (env : Env) : State → List Actor → State
  | s, [] => s
  | s, a :: as =>
    match step env s a with
    | some t => run env t as
    | none => run env s as

/-- States a run of the pipeline can be in, from `s0`. -/
inductive Reachable (env : Env) (s0 : State) : State → Prop where
  | start : Reachable env s0 s0
  | next {s t : State} (a : Actor) : Reachable env s0 s → step env s a = some t →
      Reachable env s0 t

/-- Name and content of each archive entry. -/
def entryPairs (tw : TarWriter) : List (String × List Byte) :=
  tw.entries.map (fun e => (e.hdr.Name, e.body))

/-- The moves of the pipeline, one constructor for each branch of `listBucket`,
`fetchWorker`, `supervisor` and `mainLoop`, before the clock ticks. -/
inductive Move (env : Env) (s : State) : State → Prop where
  | listErr (next : Option String) (e : String) :
      s.lister = .request next →
      env.s3.ListObjects s.listReqs.length (listRequest env next) = .error e →
      Move env s { s with
        status := .fatal ("Failed to list bucket " ++ e)
        listReqs := s.listReqs ++ [listRequest env next] }
  | listOk (next : Option String) (list : ListObjectsOutput) :
      s.lister = .request next →
      env.s3.ListObjects s.listReqs.length (listRequest env next) = .ok list →
      Move env s { s with
        lister := .push list.NextMarker list.Contents list.Contents.length
        listReqs := s.listReqs ++ [listRequest env next] }
  | pageShort (next : Option String) (len : Nat) :
      s.lister = .push next [] len → len < pageSize →
      Move env s { s with lister := .done, workClosed := true }
  | pageFull (next : Option String) (len : Nat) :
      s.lister = .push next [] len → pageSize ≤ len →
      Move env s { s with lister := .request next }
  | skip (next : Option String) (i : Object) (rest : List Object) (len : Nat) :
      s.lister = .push next (i :: rest) len → HasSuffix i.Key "/" = true →
      Move env s { s with lister := .push next rest len }
  | sendPanic (next : Option String) (i : Object) (rest : List Object) (len : Nat) :
      s.lister = .push next (i :: rest) len → HasSuffix i.Key "/" = false →
      s.workClosed = true →
      Move env s { s with status := .panicked "send on closed channel" }
  | send (next : Option String) (i : Object) (rest : List Object) (len : Nat) :
      s.lister = .push next (i :: rest) len → HasSuffix i.Key "/" = false →
      s.workClosed = false → s.workChan.length < workChanCap →
      Move env s { s with workChan := s.workChan ++ [i.Key], lister := .push next rest len }
  | recv (i : Nat) (key : String) (q : List String) :
      s.workers[i]? = some .idle → s.workChan = key :: q →
      Move env s { s with workChan := q, workers := s.workers.set i (.fetching key) }
  | exit (i : Nat) :
      s.workers[i]? = some .idle → s.workChan = [] → s.workClosed = true →
      Move env s { s with workers := s.workers.set i .exited }
  | fetchEOF (i : Nat) (key : String) :
      s.workers[i]? = some (.fetching key) →
      (env.s3.GetObject s.nGet { Key := key, Bucket := env.bucket }).err = some "EOF" →
      Move env s { s with
        nGet := s.nGet + 1
        workers := s.workers.set i
          (.requeue key (env.s3.GetObject s.nGet { Key := key, Bucket := env.bucket }).resp) }
  | fetchFatal (i : Nat) (key : String) (e : String) :
      s.workers[i]? = some (.fetching key) →
      (env.s3.GetObject s.nGet { Key := key, Bucket := env.bucket }).err = some e →
      e ≠ "EOF" →
      Move env s { s with nGet := s.nGet + 1, status := .fatal ("Found error %s " ++ e) }
  | fetchNil (i : Nat) (key : String) :
      s.workers[i]? = some (.fetching key) →
      (env.s3.GetObject s.nGet { Key := key, Bucket := env.bucket }).err = none →
      mkFileInfo key (env.s3.GetObject s.nGet { Key := key, Bucket := env.bucket }).resp = none →
      Move env s { s with
        nGet := s.nGet + 1
        status := .panicked "invalid memory address or nil pointer dereference" }
  | fetchOk (i : Nat) (key : String) (fi : fileInfo) :
      s.workers[i]? = some (.fetching key) →
      (env.s3.GetObject s.nGet { Key := key, Bucket := env.bucket }).err = none →
      mkFileInfo key (env.s3.GetObject s.nGet { Key := key, Bucket := env.bucket }).resp
        = some fi →
      Move env s { s with nGet := s.nGet + 1, workers := s.workers.set i (.handing fi) }
  | requeuePanic (i : Nat) (key : String) (resp : Option GetObjectOutput) :
      s.workers[i]? = some (.requeue key resp) → s.workClosed = true →
      Move env s { s with status := .panicked "send on closed channel" }
  | requeueNil (i : Nat) (key : String) (resp : Option GetObjectOutput) :
      s.workers[i]? = some (.requeue key resp) → s.workClosed = false →
      s.workChan.length < workChanCap → mkFileInfo key resp = none →
      Move env s { s with
        workChan := s.workChan ++ [key]
        status := .panicked "invalid memory address or nil pointer dereference" }
  | requeueOk (i : Nat) (key : String) (resp : Option GetObjectOutput) (fi : fileInfo) :
      s.workers[i]? = some (.requeue key resp) → s.workClosed = false →
      s.workChan.length < workChanCap → mkFileInfo key resp = some fi →
      Move env s { s with
        workChan := s.workChan ++ [key]
        workers := s.workers.set i (.handing fi) }
  | handPanic (i : Nat) (fi : fileInfo) :
      s.workers[i]? = some (.handing fi) → s.doneClosed = true →
      Move env s { s with status := .panicked "send on closed channel" }
  | hand (i : Nat) (fi : fileInfo) (t : Time) :
      s.workers[i]? = some (.handing fi) → s.doneClosed = false → s.modstamp = some t →
      Move env s { s with
        tarIo := (serveRecord env.lib t s.tarIo fi).1
        handed := s.handed ++ [fi]
        workers := s.workers.set i .idle
        status := match (serveRecord env.lib t s.tarIo fi).2 with
          | some msg => .fatal msg
          | none => .running }
  | closeDone :
      (∀ w ∈ s.workers, w = .exited) → s.doneClosed = false →
      Move env s { s with doneClosed := true }
  | capture :
      s.modstamp = none →
      Move env s { s with modstamp := some s.now }
  | finished (t : Time) :
      s.modstamp = some t → s.doneClosed = true →
      Move env s { s with
        tarIo := (finish env.lib s.tarIo).1
        status := .returned (finish env.lib s.tarIo).2 }

/-- Headers of the entries written so far. -/
def TarWriter.headers (tw : TarWriter) : List Header :=
  tw.entries.map (fun e => e.hdr)

/-- The key a worker holds, if any, does not name a pseudo-directory. -/
def Worker.keyOk : Worker → Prop
  | .fetching key => HasSuffix key "/" = false
  | .requeue key _ => HasSuffix key "/" = false
  | .handing fi => HasSuffix fi.Name "/" = false
  | _ => True

/-- Invariant of the pipeline, for any store: no key in the queue, held by a worker or
handed to the serializer names a pseudo-directory; nothing is handed over before
`modstamp` is captured; the headers written are headers of records handed over, in
order, stamped with `modstamp`. -/
structure NameInv (s : State) : Prop where
  queue : ∀ k ∈ s.workChan, HasSuffix k "/" = false
  held : ∀ w ∈ s.workers, w.keyOk
  handed : ∀ fi ∈ s.handed, HasSuffix fi.Name "/" = false
  unstamped : s.modstamp = none → s.handed = [] ∧ s.tarIo.entries = []
  headers : ∀ t, s.modstamp = some t →
    List.Sublist s.tarIo.headers (s.handed.map (headerOf t))

/-- The sink is open and never fails. -/
def Out.Good (o : Out) : Prop :=
  o.w.limit = none ∧ o.w.closed = false

/-- The writer is between two entries, without error, over a good sink. -/
structure TarWriter.Healthy (tw : TarWriter) : Prop where
  err : tw.err = none
  nb : tw.nb = 0
  closed : tw.closed = false
  good : tw.w.Good

/-- The store lists the bucket as `pages`: the request with marker `next`, when it is
request number `n`, gets the first page; each page but the last has at least `pageSize`
entries and its `NextMarker` gets the next page; the last page has fewer. -/
def Listing (env : Env) : Nat → Option String → List ListObjectsOutput → Prop
  | _, _, [] => False
  | n, next, p :: ps =>
    env.s3.ListObjects n (listRequest env next) = .ok p ∧
    ((ps = [] ∧ p.Contents.length < pageSize) ∨
      (ps ≠ [] ∧ pageSize ≤ p.Contents.length ∧ Listing env (n + 1) p.NextMarker ps))

/-- Every fetch succeeds, and the body of the object `key` is `content key`, of exactly the
declared length. -/
def Fetches (env : Env) (content : String → List Byte) : Prop :=
  ∀ (n : Nat) (key : String), ∃ body : ReadCloser,
    env.s3.GetObject n { Key := key, Bucket := env.bucket }
      = { resp := some { ContentLength := some (content key).length, Body := body },
          err := none } ∧
    body.content = content key ∧ body.readErr = none

/-- The keys among `os` that do not end in "/". -/
def keysOf (os : List Object) : List String :=
  (os.map (fun o => o.Key)).filter (fun k => !HasSuffix k "/")

/-- All objects of a list of pages. -/
def objectsOf (pages : List ListObjectsOutput) : List Object :=
  (pages.map (fun p => p.Contents)).flatten

/-- The (key, content) pairs the archive is to hold. -/
def expectedPairs (pages : List ListObjectsOutput) (content : String → List Byte) :
    List (String × List Byte) :=
  (keysOf (objectsOf pages)).map (fun k => (k, content k))

/-- The key a worker holds. -/
def Worker.held : Worker → List String
  | .fetching key => [key]
  | .requeue key _ => [key]
  | .handing fi => [fi.Name]
  | _ => []

/-- The objects of the current page that `listBucket` has yet to visit. -/
def Lister.rest : Lister → List Object
  | .push _ rest _ => rest
  | _ => []

/-- Sum of `f` over the workers. -/
def total (f : Worker → Nat) (ws : List Worker) : Nat :=
  (ws.map f).sum

/-- What holds of a worker when every fetch succeeds: it is never in the retry branch, and
the record it hands over is the object of its key. -/
def Worker.Clean (content : String → List Byte) : Worker → Prop
  | .requeue _ _ => False
  | .handing fi =>
    fi.Body.content = content fi.Name ∧ fi.Body.content.length = fi.Size ∧
      fi.Body.readErr = none
  | _ => True

/-- Where `listBucket` stands in the listing `pages`. -/
def ListerOk (env : Env) (pages : List ListObjectsOutput) (s : State) : Prop :=
  match s.lister with
  | .request next =>
    s.workClosed = false ∧ Listing env s.listReqs.length next (pages.drop s.listReqs.length)
  | .push next _ len =>
    s.workClosed = false ∧
    ((pages.drop s.listReqs.length = [] ∧ len < pageSize) ∨
      (pageSize ≤ len ∧
        Listing env s.listReqs.length next (pages.drop s.listReqs.length)))
  | .done => s.workClosed = true ∧ pages.drop s.listReqs.length = []

/-- Invariant of the runs in which the store lists `pages`, every fetch succeeds with
the object's content, and the sink accepts every write. -/
structure Good (env : Env) (pages : List ListObjectsOutput) (content : String → List Byte)
    (s : State) : Prop where
  status : s.status = .running ∨ (s.status = .returned none ∧ s.doneClosed = true)
  tar : s.status = .running → s.tarIo.Healthy
  bodies : ∀ e ∈ s.tarIo.entries, e.body = content e.hdr.Name
  lister : ListerOk env pages s
  acct : ∀ k : String,
    (keysOf s.lister.rest).count k + (keysOf (objectsOf (pages.drop s.listReqs.length))).count k
      + s.workChan.count k + total (fun w => w.held.count k) s.workers
      + (s.tarIo.entries.map (fun e => e.hdr.Name)).count k
      = (keysOf (objectsOf pages)).count k
  clean : ∀ w ∈ s.workers, w.Clean content
  exited : Worker.exited ∈ s.workers → s.workClosed = true ∧ s.workChan = []
  done : s.doneClosed = true → ∀ w ∈ s.workers, w = .exited
  pool : s.workers ≠ []

/-- Moves a worker still has to make on its own account. -/
def Worker.weight : Worker → Nat
  | .idle => 1
  | .fetching _ => 3
  | .requeue _ _ => 3
  | .handing _ => 2
  | .exited => 0

/-- Moves `listBucket` still has to make on the current page. -/
def Lister.weight : Lister → Nat
  | .push _ rest _ => 4 * rest.length + 1
  | _ => 0

/-- Moves the pages not yet requested will cost. -/
def pagesWeight (ps : List ListObjectsOutput) : Nat :=
  (ps.map (fun p => 4 * p.Contents.length + 3)).sum

/-- A bound on the number of moves left in a run that lists `pages`. -/
def workLeft (pages : List ListObjectsOutput) (s : State) : Nat :=
  s.lister.weight + pagesWeight (pages.drop s.listReqs.length) + 3 * s.workChan.length
    + total Worker.weight s.workers + (if s.doneClosed = true then 0 else 1)
    + (if s.modstamp = none then 1 else 0) + (if s.status = .running then 1 else 0)

/-- A toy compressor: bytes pass unchanged and `Close` appends the end mark 255. -/
def toyGz : Gzip :=
  { init := []
    write := fun z p => (z, p)
    close := fun _ => [255]
    gunzip := fun bs => if bs.getLast? = some 255 then some bs.dropLast else none }

/-- A toy library: the header block holds the name, a zero byte, mode, size and time. -/
def toyLib : Lib :=
  { gz := toyGz
    encodeHeader := fun h => h.Name.data.map Char.toNat ++ [0, h.Mode, h.Size, h.ModTime] }

/-- The bytes of "hello". -/
def hello : List Byte := [104, 101, 108, 108, 111]

/-- Object contents of the scenario bucket: "a.txt" holds "hello", every other object is
empty. -/
def scenarioContent (key : String) : List Byte :=
  if key = "a.txt" then hello else []

/-- The one page listing the scenario bucket. -/
def scenarioPage : ListObjectsOutput :=
  { Contents := [{ Key := "a.txt" }, { Key := "dir/" }, { Key := "b.bin" }], NextMarker := none }

/-- The scenario bucket: keys "a.txt", "dir/", "b.bin"; every fetch succeeds. -/
def scenarioEnv : Env :=
  { s3 :=
      { ListObjects := fun _ _ => .ok scenarioPage
        GetObject := fun _ r =>
          { resp := some
              { ContentLength := some (scenarioContent r.Key).length
                Body := { chunks := [scenarioContent r.Key], readErr := none } }
            err := none } }
    bucket := "bucket"
    lib := toyLib }

/-- An empty sink that accepts every write. -/
def openSink : Sink :=
  { data := [], limit := none, closed := false }

/-- The workers `i`, ..., in order. -/
def eachWorker (n : Nat) : List Actor :=
  (List.range n).map Actor.worker

/-- A complete schedule for the scenario bucket: the listing, two fetches by workers 0
and 1, the hand-overs, then every worker leaves and the archive is closed. -/
def scenarioSched : List Actor :=
  [.lister, .lister, .lister, .lister, .lister, .main, .worker 0, .worker 1, .worker 0,
    .worker 1, .worker 0, .worker 1] ++ eachWorker 10 ++ [.supervisor, .main]

/-- The last request issued was answered with page `p`. -/
def LastPage (env : Env) (rs : List ListObjectsRequest) (p : ListObjectsOutput) : Prop :=
  ∃ r, rs[rs.length - 1]? = some r ∧ 0 < rs.length ∧
    env.s3.ListObjects (rs.length - 1) r = .ok p

/-- Where `listBucket` stands with respect to the requests it has issued. -/
def ListerAt (env : Env) (s : State) : Prop :=
  match s.lister with
  | .request next =>
    (s.listReqs = [] ∧ next = some "") ∨
      ∃ p, LastPage env s.listReqs p ∧ pageSize ≤ p.Contents.length ∧ next = p.NextMarker
  | .push next _ len =>
    ∃ p, LastPage env s.listReqs p ∧ len = p.Contents.length ∧ next = p.NextMarker
  | .done => ∃ p, LastPage env s.listReqs p ∧ p.Contents.length < pageSize

/-- Invariant of the page requests, for any store: the first request carries the empty
marker; a further request is issued only after a page of at least `pageSize` entries,
with that page's `NextMarker`; the key queue is closed only after a shorter page. -/
structure PagingInv (env : Env) (s : State) : Prop where
  first : ∀ r, s.listReqs[0]? = some r → r = listRequest env (some "")
  chain : ∀ i r, s.listReqs[i + 1]? = some r →
    ∃ r0 p, s.listReqs[i]? = some r0 ∧ env.s3.ListObjects i r0 = .ok p ∧
      pageSize ≤ p.Contents.length ∧ r = listRequest env p.NextMarker
  lister : s.status = .running → ListerAt env s
  closed : s.workClosed = true →
    s.lister = .done ∧ ∃ p, LastPage env s.listReqs p ∧ p.Contents.length < pageSize

/-- The goroutine `listBucket` run on its own for `n` moves, each key it sends being taken off the queue
at once. -/
def listerRun (env : Env) : Nat → State → State
  | 0, s => s
  | n + 1, s =>
    match step env s .lister with
    | some t => listerRun env n { t with workChan := [] }
    | none => s

/-- The page requests that list `pages`, the first with marker `next`. -/
def requestsFor (env : Env) : Option String → List ListObjectsOutput → List ListObjectsRequest
  | _, [] => []
  | next, p :: ps => listRequest env next :: requestsFor env p.NextMarker ps

/-- A full first page: 500 entries "k" and the continuation marker "m1". -/
def fullPage : ListObjectsOutput :=
  { Contents := List.replicate 500 { Key := "k" }, NextMarker := some "m1" }

/-- An empty last page. -/
def emptyPage : ListObjectsOutput :=
  { Contents := [], NextMarker := none }

/-- A bucket of 500 objects: the request with the empty marker gets `fullPage`, any other
request gets `emptyPage`; every fetch succeeds with an empty body. -/
def pagedEnv : Env :=
  { s3 :=
      { ListObjects := fun _ r => if r.Marker = some "" then .ok fullPage else .ok emptyPage
        GetObject := fun _ _ =>
          { resp := some { ContentLength := some 0, Body := { chunks := [], readErr := none } }
            err := none } }
    bucket := "bucket"
    lib := toyLib }

/-- A fresh archive writer straight over a sink. -/
def freshTar (w : Sink) : TarWriter :=
  TarWriter.new (Out.new toyGz w false)

/-- A record that declares 5 bytes and whose body stream holds only the 2 bytes "hi". -/
def shortRecord : fileInfo :=
  { Name := "a.txt", Size := 5, Body := { chunks := [[104, 105]], readErr := none } }

/-- A record that declares 5 bytes and whose body stream holds "hello". -/
def helloRecord : fileInfo :=
  { Name := "a.txt", Size := 5, Body := { chunks := [hello], readErr := none } }

/-- A sink that accepts `cap` bytes and then fails. -/
def smallSink (cap : Nat) : Sink :=
  { data := [], limit := some cap, closed := false }

/-- A bucket with the single key "k". The first `GetObject` call fails with "EOF" and
returns `resp0` with the error; every later call succeeds with the 3 bytes 1, 2, 3. -/
def flakyEnv (resp0 : Option GetObjectOutput) : Env :=
  { s3 :=
      { ListObjects := fun _ _ => .ok { Contents := [{ Key := "k" }], NextMarker := none }
        GetObject := fun n _ =>
          if n = 0 then { resp := resp0, err := some "EOF" }
          else
            { resp := some
                { ContentLength := some 3, Body := { chunks := [[1, 2, 3]], readErr := none } }
              err := none } }
    bucket := "bucket"
    lib := toyLib }

/-- A bucket without objects. -/
def emptyEnv : Env :=
  { s3 :=
      { ListObjects := fun _ _ => .ok emptyPage
        GetObject := fun _ _ => { resp := none, err := some "NoSuchKey" } }
    bucket := "bucket"
    lib := toyLib }

/-- A complete schedule for the bucket without objects. -/
def emptySched : List Actor :=
  [.lister, .lister, .main] ++ eachWorker 10 ++ [.supervisor, .main]

/-- A complete schedule for the bucket whose first fetch fails: worker 0 fetches "k",
fails, re-enqueues it and hands over a record all the same; worker 1 fetches "k"
again; then every worker leaves and the archive is closed. -/
def retrySched : List Actor :=
  [.lister, .lister, .main, .worker 0, .worker 0, .worker 0, .worker 0, .lister, .worker 1,
    .worker 1, .worker 1] ++ eachWorker 10 ++ [.supervisor, .main]

/-- The bytes the compressor sends to the sink when `chunks` are written to it, one
`Write` each, from state `z`, and it is then closed. -/
def Gzip.emit (gz : Gzip) : List Byte → List (List Byte) → List Byte
  | z, [] => gz.close z
  | z, c :: cs => (gz.write z c).2 ++ Gzip.emit gz (gz.write z c).1 cs

/-- The decompressor undoes the compressor: whatever is written, in whatever pieces,
decompressing the closed stream gives back the bytes written. -/
def Gzip.Lawful (gz : Gzip) : Prop :=
  ∀ chunks : List (List Byte), gz.gunzip (gz.emit gz.init chunks) = some chunks.flatten

/-- The writer `a` straight over a sink and the writer `b` through the compressor have
received the same writes. -/
def Sim (gz : Gzip) (a b : Out) : Prop :=
  a.gzw = none ∧ a.Good ∧ b.Good ∧
  ∃ (z : List Byte) (chunks : List (List Byte)), b.gzw = some z ∧ a.w.data = chunks.flatten ∧
    ∀ more, b.w.data ++ gz.emit z more = gz.emit gz.init (chunks ++ more)

/-- Two archive writers in the same state, one straight over a sink and one through the
compressor. -/
def TarSim (gz : Gzip) (a b : TarWriter) : Prop :=
  a.nb = b.nb ∧ a.pad = b.pad ∧ a.err = b.err ∧ a.closed = b.closed ∧
    a.entries = b.entries ∧ Sim gz a.w b.w

/-- The serializer loop over the records `records`, in the order received: each is served
until one fails. -/
def serveAll (lib : Lib) (modstamp : Time) : TarWriter → List fileInfo → TarWriter × Option String
  | tw, [] => (tw, none)
  | tw, fi :: rest =>
    match (serveRecord lib modstamp tw fi).2 with
    | some msg => ((serveRecord lib modstamp tw fi).1, some msg)
    | none => serveAll lib modstamp (serveRecord lib modstamp tw fi).1 rest

/-- The main goroutine of `tarBucket` from line 108 on, as a function of the records it
receives: the final writer and how the process stands. -/
def serialize (lib : Lib) (modstamp : Time) (tw : TarWriter) (records : List fileInfo) :
    TarWriter × Status :=
  match (serveAll lib modstamp tw records).2 with
  | some msg => ((serveAll lib modstamp tw records).1, .fatal msg)
  | none =>
    ((finish lib (serveAll lib modstamp tw records).1).1,
      .returned (finish lib (serveAll lib modstamp tw records).1).2)

/-- How the archive writer of a run relates to the records received so far: it is the
writer the serializer loop leaves after them, finished once `tarBucket` has returned. -/
structure SerInv (env : Env) (tar0 : TarWriter) (s : State) : Prop where
  unstamped : s.modstamp = none →
    s.handed = [] ∧ s.tarIo = tar0 ∧ ∀ e, s.status ≠ .returned e
  running : ∀ t, s.modstamp = some t → (∀ e, s.status ≠ .returned e) →
    s.tarIo = (serveAll env.lib t tar0 s.handed).1 ∧
    (s.status = .running → (serveAll env.lib t tar0 s.handed).2 = none)
  returned : ∀ e, s.status = .returned e →
    ∃ t, s.modstamp = some t ∧ (s.tarIo, s.status) = serialize env.lib t tar0 s.handed

/-- Lines 38-41 of `TarExecute`, once `tarBucket` has returned in state `s`: the error of
`tarBucket` is returned and the deferred `w.Close()` closes the sink. It is `none` as
long as `tarBucket` has not returned. -/
def TarExecute (s : State) : Option (Sink × Option String) :=
  match s.status with
  | .returned err => some (s.tarIo.w.w.Close, err)
  | _ => none

/-! ## Lemmas -/

theorem chanSend_panic {q : List String} {c : Bool} {k : String}
    (h : chanSend q c k = .panic) : c = true := by
  unfold chanSend at h
  by_cases hc : c = true
  · exact hc
  · by_cases hq : q.length < workChanCap <;> simp [hc, hq] at h

theorem chanSend_sent {q q' : List String} {c : Bool} {k : String}
    (h : chanSend q c k = .sent q') :
    c = false ∧ q.length < workChanCap ∧ q' = q ++ [k] := by
  unfold chanSend at h
  by_cases hc : c = true
  · simp [hc] at h
  · by_cases hq : q.length < workChanCap
    · simp [hc, hq] at h
      exact ⟨by simpa using hc, hq, h.symm⟩
    · simp [hc, hq] at h

theorem chanSend_open {q : List String} {k : String} (hq : q.length < workChanCap) :
    chanSend q false k = .sent (q ++ [k]) := by
  simp [chanSend, hq]

theorem listBucket_move {env : Env} {s t : State} (h : listBucket env s = some t) :
    Move env s t := by
  unfold listBucket at h
  split at h
  · rename_i next hl
    split at h
    · rename_i e he
      cases h
      exact Move.listErr next e hl he
    · rename_i list he
      cases h
      exact Move.listOk next list hl he
  · rename_i next len hl
    split at h
    · rename_i hlt
      cases h
      exact Move.pageShort next len hl hlt
    · rename_i hlt
      cases h
      exact Move.pageFull next len hl (Nat.le_of_not_lt hlt)
  · rename_i next i rest len hl
    split at h
    · rename_i hs
      cases h
      exact Move.skip next i rest len hl hs
    · rename_i hs
      have hs' : HasSuffix i.Key "/" = false := by simpa using hs
      split at h
      · rename_i hc
        cases h
        exact Move.sendPanic next i rest len hl hs' (chanSend_panic hc)
      · cases h
      · rename_i q hc
        cases h
        obtain ⟨h1, h2, h3⟩ := chanSend_sent hc
        subst h3
        exact Move.send next i rest len hl hs' h1 h2
  · simp at h

theorem mkFileInfo_name {key : String} {resp : Option GetObjectOutput} {fi : fileInfo}
    (h : mkFileInfo key resp = some fi) : fi.Name = key := by
  unfold mkFileInfo at h
  split at h
  · cases h
  · split at h
    · cases h
    · cases h
      rfl

theorem fetchWorker_move {env : Env} {s t : State} {i : Nat}
    (h : fetchWorker env s i = some t) : Move env s t := by
  unfold fetchWorker at h
  split at h
  · cases h
  · rename_i hw
    split at h
    · rename_i key q hq
      cases h
      exact Move.recv i key q hw hq
    · rename_i hq
      split at h
      · rename_i hc
        cases h
        exact Move.exit i hw hq hc
      · cases h
  · rename_i key hw
    simp only at h
    split at h
    · rename_i e he
      split at h
      · rename_i heq
        cases h
        subst heq
        exact Move.fetchEOF i key hw he
      · rename_i hne
        cases h
        exact Move.fetchFatal i key e hw he hne
    · rename_i he
      cases h
      unfold buildInfo
      split
      · rename_i hm
        exact Move.fetchNil i key hw he hm
      · rename_i fi hm
        exact Move.fetchOk i key fi hw he hm
  · rename_i key resp hw
    split at h
    · rename_i hc
      cases h
      exact Move.requeuePanic i key resp hw (chanSend_panic hc)
    · cases h
    · rename_i q hc
      cases h
      obtain ⟨h1, h2, h3⟩ := chanSend_sent hc
      subst h3
      unfold buildInfo
      split
      · rename_i hm
        exact Move.requeueNil i key resp hw h1 h2 hm
      · rename_i fi hm
        exact Move.requeueOk i key resp fi hw h1 h2 hm
  · rename_i fi hw
    split at h
    · rename_i hd
      cases h
      exact Move.handPanic i fi hw hd
    · rename_i hd
      split at h
      · cases h
      · rename_i t ht
        cases h
        exact Move.hand i fi t hw (by simpa using hd) ht
  · cases h

theorem supervisor_move {env : Env} {s t : State} (h : supervisor s = some t) :
    Move env s t := by
  unfold supervisor at h
  split at h
  · rename_i hc
    cases h
    refine Move.closeDone ?_ hc.2
    intro w hw
    have := List.all_eq_true.mp hc.1 w hw
    simpa using this
  · cases h

theorem mainLoop_move {env : Env} {s t : State} (h : mainLoop env s = some t) :
    Move env s t := by
  unfold mainLoop at h
  split at h
  · rename_i hm
    cases h
    exact Move.capture hm
  · rename_i t0 hm
    split at h
    · rename_i hd
      cases h
      exact Move.finished t0 hm hd
    · cases h

/-- Every step is one of the moves, taken while the process runs, followed by a tick of
the clock. -/
theorem step_move {env : Env} {s t : State} {a : Actor} (h : step env s a = some t) :
    s.status = .running ∧ ∃ u, Move env s u ∧ t = { u with now := u.now + 1 } := by
  unfold step at h
  split at h
  · cases h
  · rename_i hs
    refine ⟨by simpa using hs, ?_⟩
    rw [Option.map_eq_some'] at h
    obtain ⟨u, hu, hut⟩ := h
    subst hut
    refine ⟨u, ?_, rfl⟩
    cases a with
    | lister => exact listBucket_move hu
    | worker i => exact fetchWorker_move hu
    | supervisor => exact supervisor_move hu
    | main => exact mainLoop_move hu

theorem appendBody_hdr (es : List Entry) (b : List Byte) :
    (appendBody es b).map (fun e => e.hdr) = es.map (fun e => e.hdr) := by
  induction es with
  | nil => rfl
  | cons e es ih =>
    cases es with
    | nil => simp [appendBody]
    | cons e2 es2 =>
      simp only [appendBody, List.map_cons] at ih ⊢
      rw [ih]

theorem appendBody_length (es : List Entry) (b : List Byte) :
    (appendBody es b).length = es.length := by
  have := congrArg List.length (appendBody_hdr es b)
  simpa using this

theorem appendBody_snoc (es : List Entry) (e : Entry) (b : List Byte) :
    appendBody (es ++ [e]) b = es ++ [{ e with body := e.body ++ b }] := by
  induction es with
  | nil => simp [appendBody]
  | cons e1 es ih =>
    cases es with
    | nil => simp [appendBody]
    | cons e2 es2 =>
      show e1 :: appendBody (e2 :: (es2 ++ [e])) b = _
      have ih2 : appendBody (e2 :: (es2 ++ [e])) b
          = e2 :: (es2 ++ [{ e with body := e.body ++ b }]) := ih
      rw [ih2]
      rfl

theorem Flush_entries (lib : Lib) (tw : TarWriter) : (tw.Flush lib).entries = tw.entries := by
  unfold TarWriter.Flush
  split
  · rfl
  · split <;> rfl

theorem WriteHeader_headers (lib : Lib) (tw : TarWriter) (h : Header) :
    (tw.WriteHeader lib h).1.headers = tw.headers ∨
      (tw.WriteHeader lib h).1.headers = tw.headers ++ [h] := by
  unfold TarWriter.WriteHeader TarWriter.headers
  by_cases hc : tw.closed = true
  · simp [hc]
  · simp only [hc]
    generalize htw1 : (if tw.err = none then tw.Flush lib else tw) = tw1
    have he : tw1.entries = tw.entries := by
      subst htw1
      split
      · exact Flush_entries lib tw
      · rfl
    cases h1 : tw1.err with
    | some e => simp [he]
    | none =>
      by_cases hr : (tw1.w.Write lib.gz (lib.encodeHeader h)).2.2 = none
      · simp [hr, he]
      · simp [hr, he]

theorem Write_headers (lib : Lib) (tw : TarWriter) (b : List Byte) :
    (tw.Write lib b).1.headers = tw.headers := by
  unfold TarWriter.Write TarWriter.headers
  split
  · rfl
  · simp only
    split <;> split <;> simp [appendBody_hdr]

theorem copyChunks_headers (lib : Lib) (cs : List (List Byte)) (tw : TarWriter) :
    (copyChunks lib tw cs).1.headers = tw.headers := by
  induction cs generalizing tw with
  | nil => rfl
  | cons c cs ih =>
    unfold copyChunks
    split
    · exact ih tw
    · simp only
      split
      · exact Write_headers lib tw c
      · split
        · exact Write_headers lib tw c
        · rw [ih, Write_headers]

theorem ioCopy_headers (lib : Lib) (tw : TarWriter) (src : ReadCloser) :
    (ioCopy lib tw src).1.headers = tw.headers := by
  unfold ioCopy
  simp only
  split <;> exact copyChunks_headers lib src.chunks tw

theorem serveRecord_headers (lib : Lib) (t : Time) (tw : TarWriter) (fi : fileInfo) :
    (serveRecord lib t tw fi).1.headers = tw.headers ∨
      (serveRecord lib t tw fi).1.headers = tw.headers ++ [headerOf t fi] := by
  have h1 : (serveRecord lib t tw fi).1.headers
      = (tw.WriteHeader lib (headerOf t fi)).1.headers := by
    unfold serveRecord
    simp only
    split <;> exact ioCopy_headers lib _ _
  rw [h1]
  exact WriteHeader_headers lib tw _

theorem Close_entries (lib : Lib) (tw : TarWriter) : (tw.Close lib).1.entries = tw.entries := by
  unfold TarWriter.Close
  split
  · rfl
  · simp only
    split
    · exact Flush_entries lib tw
    · split <;> exact Flush_entries lib tw

theorem finish_entries (lib : Lib) (tw : TarWriter) : (finish lib tw).1.entries = tw.entries := by
  unfold finish
  exact Close_entries lib tw

theorem nameInv_tarBucket (env : Env) (w : Sink) (compress : Bool) (t0 : Time) :
    NameInv (tarBucket env w compress t0) := by
  constructor
  · intro k hk
    simp [tarBucket] at hk
  · intro x hx
    simp only [tarBucket] at hx
    rw [List.eq_of_mem_replicate hx]
    trivial
  · intro fi hfi
    simp [tarBucket] at hfi
  · intro _
    exact ⟨rfl, rfl⟩
  · intro t ht
    simp [tarBucket] at ht

theorem keyOk_set {ws : List Worker} {i : Nat} {x : Worker}
    (h : ∀ w ∈ ws, w.keyOk) (hx : x.keyOk) : ∀ w ∈ ws.set i x, w.keyOk := by
  intro w hw
  rcases List.mem_or_eq_of_mem_set hw with h1 | h1
  · exact h w h1
  · rw [h1]
    exact hx

theorem nameInv_move {env : Env} {s u : State} (hi : NameInv s) (hm : Move env s u) :
    NameInv u := by
  obtain ⟨hq, hw, hh, hu, hd⟩ := hi
  cases hm with
  | listErr next e h1 h2 => exact ⟨hq, hw, hh, hu, hd⟩
  | listOk next list h1 h2 => exact ⟨hq, hw, hh, hu, hd⟩
  | pageShort next len h1 h2 => exact ⟨hq, hw, hh, hu, hd⟩
  | pageFull next len h1 h2 => exact ⟨hq, hw, hh, hu, hd⟩
  | skip next i rest len h1 h2 => exact ⟨hq, hw, hh, hu, hd⟩
  | sendPanic next i rest len h1 h2 h3 => exact ⟨hq, hw, hh, hu, hd⟩
  | send next i rest len h1 h2 h3 h4 =>
    refine ⟨?_, hw, hh, hu, hd⟩
    intro k hk
    rcases List.mem_append.mp hk with h5 | h5
    · exact hq k h5
    · rw [List.mem_singleton.mp h5]
      exact h2
  | recv i key q h1 h2 =>
    refine ⟨?_, ?_, hh, hu, hd⟩
    · intro k hk
      exact hq k (by rw [h2]; exact List.mem_cons_of_mem _ hk)
    · exact keyOk_set hw (hq key (by rw [h2]; exact List.mem_cons_self _ _))
  | exit i h1 h2 h3 => exact ⟨hq, keyOk_set hw trivial, hh, hu, hd⟩
  | fetchEOF i key h1 h2 =>
    have hk0 : HasSuffix key "/" = false := hw (.fetching key) (List.getElem?_mem h1)
    exact ⟨hq, keyOk_set hw hk0, hh, hu, hd⟩
  | fetchFatal i key e h1 h2 h3 => exact ⟨hq, hw, hh, hu, hd⟩
  | fetchNil i key h1 h2 h3 => exact ⟨hq, hw, hh, hu, hd⟩
  | fetchOk i key fi h1 h2 h3 =>
    refine ⟨hq, keyOk_set hw ?_, hh, hu, hd⟩
    show HasSuffix fi.Name "/" = false
    rw [mkFileInfo_name h3]
    exact hw (.fetching key) (List.getElem?_mem h1)
  | requeuePanic i key resp h1 h2 => exact ⟨hq, hw, hh, hu, hd⟩
  | requeueNil i key resp h1 h2 h3 h4 =>
    refine ⟨?_, hw, hh, hu, hd⟩
    intro k hk
    rcases List.mem_append.mp hk with h5 | h5
    · exact hq k h5
    · rw [List.mem_singleton.mp h5]
      exact hw (.requeue key resp) (List.getElem?_mem h1)
  | requeueOk i key resp fi h1 h2 h3 h4 =>
    have hk0 : HasSuffix key "/" = false := hw (.requeue key resp) (List.getElem?_mem h1)
    refine ⟨?_, keyOk_set hw ?_, hh, hu, hd⟩
    · intro k hk
      rcases List.mem_append.mp hk with h5 | h5
      · exact hq k h5
      · rw [List.mem_singleton.mp h5]
        exact hk0
    · show HasSuffix fi.Name "/" = false
      rw [mkFileInfo_name h4]
      exact hk0
  | handPanic i fi h1 h2 => exact ⟨hq, hw, hh, hu, hd⟩
  | hand i fi t h1 h2 h3 =>
    have hk0 : HasSuffix fi.Name "/" = false := hw (.handing fi) (List.getElem?_mem h1)
    refine ⟨hq, keyOk_set hw trivial, ?_, ?_, ?_⟩
    · intro f hf
      rcases List.mem_append.mp hf with h5 | h5
      · exact hh f h5
      · rw [List.mem_singleton.mp h5]
        exact hk0
    · intro h6
      rw [h3] at h6
      cases h6
    · intro t2 h6
      have h7 : t2 = t := by
        have h8 : some t = some t2 := h3.symm.trans h6
        exact (Option.some.inj h8).symm
      subst h7
      have h9 := hd t2 h3
      rw [List.map_append]
      rcases serveRecord_headers env.lib t2 s.tarIo fi with h10 | h10
      · show List.Sublist (serveRecord env.lib t2 s.tarIo fi).1.headers _
        rw [h10]
        exact h9.trans (List.sublist_append_left _ _)
      · show List.Sublist (serveRecord env.lib t2 s.tarIo fi).1.headers _
        rw [h10]
        exact List.Sublist.append h9 (List.Sublist.refl _)
  | closeDone h1 h2 => exact ⟨hq, hw, hh, hu, hd⟩
  | capture h1 =>
    refine ⟨hq, hw, hh, ?_, ?_⟩
    · intro h2
      cases h2
    · intro t _
      obtain ⟨h3, h4⟩ := hu h1
      show List.Sublist s.tarIo.headers (s.handed.map (headerOf t))
      simp [TarWriter.headers, h3, h4]
  | finished t h1 h2 =>
    refine ⟨hq, hw, hh, ?_, ?_⟩
    · intro h3
      rw [h1] at h3
      cases h3
    · intro t2 h3
      show List.Sublist (finish env.lib s.tarIo).1.headers _
      have h4 : (finish env.lib s.tarIo).1.headers = s.tarIo.headers := by
        unfold TarWriter.headers
        rw [finish_entries]
      rw [h4]
      exact hd t2 h3

theorem nameInv_tick {s : State} (h : NameInv s) : NameInv { s with now := s.now + 1 } :=
  ⟨h.queue, h.held, h.handed, h.unstamped, h.headers⟩

theorem nameInv_step {env : Env} {s t : State} {a : Actor} (hi : NameInv s)
    (h : step env s a = some t) : NameInv t := by
  obtain ⟨_, u, hm, rfl⟩ := step_move h
  exact nameInv_tick (nameInv_move hi hm)

theorem nameInv_reachable {env : Env} {s0 s : State} (h0 : NameInv s0)
    (h : Reachable env s0 s) : NameInv s := by
  induction h with
  | start => exact h0
  | next a _ hs ih => exact nameInv_step ih hs

theorem Sink_Write_good {w : Sink} (h1 : w.limit = none) (h2 : w.closed = false)
    (p : List Byte) : w.Write p = ({ w with data := w.data ++ p }, p.length, none) := by
  unfold Sink.Write
  simp [h1, h2]

theorem Out_Write_good (gz : Gzip) {o : Out} (h : o.Good) (p : List Byte) :
    (o.Write gz p).2.2 = none ∧ (o.Write gz p).2.1 = p.length ∧ (o.Write gz p).1.Good := by
  obtain ⟨h1, h2⟩ := h
  cases hz : o.gzw <;>
    simp [Out.Write, hz, Sink_Write_good h1 h2, Out.Good, h1, h2]

theorem Flush_good (lib : Lib) {tw : TarWriter} (h : tw.Healthy) :
    (tw.Flush lib).Healthy := by
  obtain ⟨h1, h2, h3, h4⟩ := h
  unfold TarWriter.Flush
  have h5 : ¬ 0 < tw.nb := by omega
  rw [if_neg h5]
  split
  · obtain ⟨h6, _, h8⟩ := Out_Write_good lib.gz h4 (zeroBlock tw.pad)
    exact ⟨h6, rfl, h3, h8⟩
  · exact ⟨h1, rfl, h3, h4⟩

theorem WriteHeader_good (lib : Lib) {tw : TarWriter} (h : tw.Healthy) (hdr : Header) :
    (tw.WriteHeader lib hdr).1.err = none ∧
    (tw.WriteHeader lib hdr).1.nb = hdr.Size ∧
    (tw.WriteHeader lib hdr).1.closed = false ∧
    (tw.WriteHeader lib hdr).1.w.Good ∧
    (tw.WriteHeader lib hdr).1.entries = tw.entries ++ [{ hdr := hdr, body := [] }] := by
  have hf := Flush_good lib h
  obtain ⟨h6, _, h8⟩ := Out_Write_good lib.gz hf.good (lib.encodeHeader hdr)
  have heq : tw.WriteHeader lib hdr =
      ({ (tw.Flush lib) with
          w := ((tw.Flush lib).w.Write lib.gz (lib.encodeHeader hdr)).1
          nb := hdr.Size
          pad := (blockSize - hdr.Size % blockSize) % blockSize
          err := none
          entries := tw.entries ++ [{ hdr := hdr, body := [] }] }, none) := by
    unfold TarWriter.WriteHeader
    simp [h.closed, h.err, hf.err, h6, Flush_entries]
  rw [heq]
  exact ⟨rfl, rfl, hf.closed, h8, rfl⟩

theorem Write_fits (lib : Lib) {tw : TarWriter} (hc : tw.closed = false) (hg : tw.w.Good)
    (b : List Byte) (hb : b.length ≤ tw.nb) :
    tw.Write lib b =
      ({ tw with
          w := (tw.w.Write lib.gz b).1
          nb := tw.nb - b.length
          err := none
          entries := appendBody tw.entries b }, b.length, none) := by
  obtain ⟨h6, h7, _⟩ := Out_Write_good lib.gz hg b
  have ho : ¬ tw.nb < b.length := by omega
  unfold TarWriter.Write
  simp [hc, ho, h6, h7]

theorem Write_over (lib : Lib) {tw : TarWriter} (hc : tw.closed = false) (hg : tw.w.Good)
    (b : List Byte) (hb : tw.nb < b.length) :
    tw.Write lib b =
      ({ tw with
          w := (tw.w.Write lib.gz (b.take tw.nb)).1
          nb := 0
          entries := appendBody tw.entries (b.take tw.nb) }, tw.nb, some ErrWriteTooLong) := by
  obtain ⟨h6, h7, _⟩ := Out_Write_good lib.gz hg (b.take tw.nb)
  have h9 : (List.take tw.nb b).length = tw.nb := by
    rw [List.length_take]
    omega
  unfold TarWriter.Write
  simp [hc, hb, h6, h7, h9, List.take_take]

/-- What `io.Copy` leaves in the archive: over a good sink the bytes copied under the
current header are the first `nb` bytes of the stream. -/
theorem copyChunks_good (lib : Lib) (cs : List (List Byte)) :
    ∀ (tw : TarWriter) (es : List Entry) (e : Entry), tw.closed = false → tw.w.Good →
      tw.entries = es ++ [e] →
      (copyChunks lib tw cs).1.closed = false ∧ (copyChunks lib tw cs).1.w.Good ∧
      (copyChunks lib tw cs).1.entries
        = es ++ [{ e with body := e.body ++ cs.flatten.take tw.nb }] ∧
      (copyChunks lib tw cs).1.nb = tw.nb - cs.flatten.length ∧
      (cs.flatten.length ≤ tw.nb → (copyChunks lib tw cs).2 = none ∧
        (tw.err = none → (copyChunks lib tw cs).1.err = none)) ∧
      (tw.nb < cs.flatten.length → (copyChunks lib tw cs).2 = some ErrWriteTooLong) := by
  induction cs with
  | nil =>
    intro tw es e hc hg he
    simp [copyChunks, hc, hg, he]
  | cons c cs ih =>
    intro tw es e hc hg he
    unfold copyChunks
    by_cases h0 : c.length = 0
    · have hc0 : c = [] := List.length_eq_zero.mp h0
      subst hc0
      simpa using ih tw es e hc hg he
    · rw [if_neg h0]
      by_cases ho : tw.nb < c.length
      · have hw := Write_over lib hc hg c ho
        obtain ⟨_, _, g3⟩ := Out_Write_good lib.gz hg (c.take tw.nb)
        simp only [hw]
        refine ⟨hc, g3, ?_, ?_, ?_, ?_⟩
        · rw [he, appendBody_snoc]
          simp only [List.flatten_cons]
          rw [List.take_append_of_le_length (by omega)]
        · simp only [List.flatten_cons, List.length_append]
          omega
        · intro h
          simp only [List.flatten_cons, List.length_append] at h
          omega
        · intro _
          trivial
      · have hw := Write_fits lib hc hg c (by omega)
        obtain ⟨_, _, g3⟩ := Out_Write_good lib.gz hg c
        simp only [hw, ne_eq, not_true_eq_false, if_false]
        have he1 : appendBody tw.entries c = es ++ [{ e with body := e.body ++ c }] := by
          rw [he, appendBody_snoc]
        obtain ⟨i1, i2, i3, i4, i5, i6⟩ := ih
          { tw with
            w := (tw.w.Write lib.gz c).1
            nb := tw.nb - c.length
            err := none
            entries := appendBody tw.entries c } es _ hc g3 he1
        refine ⟨i1, i2, ?_, ?_, ?_, ?_⟩
        · rw [i3]
          simp only [List.flatten_cons, List.append_assoc]
          rw [List.take_append_eq_append_take,
            List.take_of_length_le (by omega : c.length ≤ tw.nb)]
        · rw [i4]
          simp only [List.flatten_cons, List.length_append]
          omega
        · intro h
          simp only [List.flatten_cons, List.length_append] at h
          obtain ⟨j1, j2⟩ := i5 (by simp only; omega)
          exact ⟨j1, fun _ => j2 rfl⟩
        · intro h
          simp only [List.flatten_cons, List.length_append] at h
          exact i6 (by simp only; omega)

/-- Serving one record with a healthy writer: the header is written and the first `Size`
bytes of the body are copied under it. -/
theorem serveRecord_good (lib : Lib) {tw : TarWriter} (h : tw.Healthy) (t : Time)
    (fi : fileInfo) :
    (serveRecord lib t tw fi).1.entries
      = tw.entries ++ [{ hdr := headerOf t fi, body := fi.Body.content.take fi.Size }] ∧
    (serveRecord lib t tw fi).1.closed = false ∧
    (serveRecord lib t tw fi).1.w.Good ∧
    (serveRecord lib t tw fi).1.nb = fi.Size - fi.Body.content.length ∧
    (fi.Body.content.length ≤ fi.Size → fi.Body.readErr = none →
      (serveRecord lib t tw fi).2 = none ∧ (serveRecord lib t tw fi).1.err = none) ∧
    (fi.Size < fi.Body.content.length →
      (serveRecord lib t tw fi).2 = some ("Failed to write tarfile " ++ ErrWriteTooLong)) := by
  obtain ⟨h1, h2, h3, h4, h5⟩ := WriteHeader_good lib h (headerOf t fi)
  obtain ⟨c1, c2, c3, c4, c5, c6⟩ :=
    copyChunks_good lib fi.Body.chunks (tw.WriteHeader lib (headerOf t fi)).1 tw.entries _
      h3 h4 h5
  rw [h2] at c3 c4 c5 c6
  have hsz : (headerOf t fi).Size = fi.Size := rfl
  rw [hsz] at c3 c4 c5 c6
  unfold serveRecord ioCopy
  simp only
  unfold ReadCloser.content
  by_cases hlen : fi.Body.chunks.flatten.length ≤ fi.Size
  · obtain ⟨c7, c8⟩ := c5 hlen
    rw [c7]
    simp only
    refine ⟨?_, ?_, ?_, ?_, ?_, ?_⟩
    · split <;> simpa using c3
    · split <;> exact c1
    · split <;> exact c2
    · split <;> exact c4
    · intro _ hr
      rw [hr]
      exact ⟨rfl, c8 h1⟩
    · intro hlt
      omega
  · have c7 := c6 (by omega)
    rw [c7]
    simp only
    refine ⟨by simpa using c3, c1, c2, c4, ?_, ?_⟩
    · intro hle
      omega
    · intro _
      trivial

/-- A record whose body has exactly the declared length leaves the writer healthy. -/
theorem serveRecord_exact (lib : Lib) {tw : TarWriter} (h : tw.Healthy) (t : Time)
    (fi : fileInfo) (hlen : fi.Body.content.length = fi.Size) (hr : fi.Body.readErr = none) :
    (serveRecord lib t tw fi).2 = none ∧ (serveRecord lib t tw fi).1.Healthy ∧
    (serveRecord lib t tw fi).1.entries
      = tw.entries ++ [{ hdr := headerOf t fi, body := fi.Body.content }] := by
  obtain ⟨g1, g2, g3, g4, g5, _⟩ := serveRecord_good lib h t fi
  obtain ⟨g6, g7⟩ := g5 (by omega) hr
  refine ⟨g6, ⟨g7, by omega, g2, g3⟩, ?_⟩
  rw [g1, List.take_of_length_le (by omega)]

theorem Close_good (lib : Lib) {tw : TarWriter} (h : tw.Healthy) :
    (tw.Close lib).2 = none := by
  have hf := Flush_good lib h
  obtain ⟨a1, _, a3⟩ := Out_Write_good lib.gz hf.good (zeroBlock blockSize)
  obtain ⟨b1, _, _⟩ := Out_Write_good lib.gz a3 (zeroBlock blockSize)
  unfold TarWriter.Close
  simp [h.err, h.closed, hf.err, a1, b1]

theorem finish_good (lib : Lib) {tw : TarWriter} (h : tw.Healthy) :
    (finish lib tw).2 = none := by
  unfold finish
  exact Close_good lib h

theorem total_set (f : Worker → Nat) :
    ∀ (ws : List Worker) (i : Nat) (w x : Worker), ws[i]? = some w →
      total f (ws.set i x) + f w = total f ws + f x := by
  intro ws
  induction ws with
  | nil =>
    intro i w x h
    simp at h
  | cons a ws ih =>
    intro i w x h
    cases i with
    | zero =>
      simp only [List.getElem?_cons_zero, Option.some.injEq] at h
      subst h
      simp only [total, List.set_cons_zero, List.map_cons, List.sum_cons]
      omega
    | succ j =>
      simp only [List.getElem?_cons_succ] at h
      have := ih j w x h
      simp only [total, List.set_cons_succ, List.map_cons, List.sum_cons] at this ⊢
      omega

theorem total_eq_zero (f : Worker → Nat) (ws : List Worker) (h : ∀ w ∈ ws, f w = 0) :
    total f ws = 0 := by
  induction ws with
  | nil => rfl
  | cons a ws ih =>
    simp only [total, List.map_cons, List.sum_cons]
    have h1 := h a (List.mem_cons_self _ _)
    have h2 := ih (fun w hw => h w (List.mem_cons_of_mem _ hw))
    simp only [total] at h2
    omega

theorem good_tarBucket {env : Env} {pages : List ListObjectsOutput}
    {content : String → List Byte} (hl : Listing env 0 (some "") pages) (w : Sink)
    (hw1 : w.limit = none) (hw2 : w.closed = false) (compress : Bool) (t0 : Time) :
    Good env pages content (tarBucket env w compress t0) := by
  refine ⟨Or.inl rfl, ?_, ?_, ?_, ?_, ?_, ?_, ?_, ?_⟩
  · intro _
    refine ⟨rfl, rfl, rfl, ?_⟩
    cases compress <;> exact ⟨hw1, hw2⟩
  · intro e he
    simp [tarBucket, TarWriter.new] at he
  · exact ⟨rfl, hl⟩
  · intro k
    have h0 : total (fun w => w.held.count k) (List.replicate S3_WORKERS Worker.idle) = 0 := by
      apply total_eq_zero
      intro w hw
      rw [List.eq_of_mem_replicate hw]
      rfl
    simp [tarBucket, TarWriter.new, Lister.rest, keysOf, h0]
  · intro x hx
    simp only [tarBucket] at hx
    rw [List.eq_of_mem_replicate hx]
    trivial
  · intro hx
    simp only [tarBucket] at hx
    have := List.eq_of_mem_replicate hx
    cases this
  · intro h
    simp [tarBucket] at h
  · simp [tarBucket, S3_WORKERS]

theorem Listing_inv {env : Env} {n : Nat} {next : Option String}
    {l : List ListObjectsOutput} (h : Listing env n next l) :
    ∃ p ps, l = p :: ps ∧ env.s3.ListObjects n (listRequest env next) = .ok p ∧
      ((ps = [] ∧ p.Contents.length < pageSize) ∨
        (ps ≠ [] ∧ pageSize ≤ p.Contents.length ∧ Listing env (n + 1) p.NextMarker ps)) := by
  cases l with
  | nil => exact absurd h (by simp [Listing])
  | cons p ps =>
    unfold Listing at h
    exact ⟨p, ps, rfl, h.1, h.2⟩

theorem drop_succ_of_drop_eq_cons {α : Type} {l : List α} {n : Nat} {a : α} {as : List α}
    (h : l.drop n = a :: as) : l.drop (n + 1) = as := by
  have h1 : l.drop (n + 1) = (l.drop n).drop 1 := by
    rw [List.drop_drop]
  rw [h1, h]
  rfl

theorem keysOf_nil : keysOf [] = [] := rfl

theorem keysOf_append (a b : List Object) : keysOf (a ++ b) = keysOf a ++ keysOf b := by
  simp [keysOf]

theorem keysOf_cons_dir {o : Object} (os : List Object) (h : HasSuffix o.Key "/" = true) :
    keysOf (o :: os) = keysOf os := by
  simp [keysOf, h]

theorem keysOf_cons_key {o : Object} (os : List Object) (h : HasSuffix o.Key "/" = false) :
    keysOf (o :: os) = o.Key :: keysOf os := by
  simp [keysOf, h]

theorem objectsOf_cons (p : ListObjectsOutput) (ps : List ListObjectsOutput) :
    objectsOf (p :: ps) = p.Contents ++ objectsOf ps := by
  simp [objectsOf]

theorem clean_set {content : String → List Byte} {ws : List Worker} {i : Nat} {x : Worker}
    (h : ∀ w ∈ ws, w.Clean content) (hx : x.Clean content) :
    ∀ w ∈ ws.set i x, w.Clean content := by
  intro w hw
  rcases List.mem_or_eq_of_mem_set hw with h1 | h1
  · exact h w h1
  · rw [h1]
    exact hx

theorem set_ne_nil {ws : List Worker} (i : Nat) (x : Worker) (h : ws ≠ []) :
    ws.set i x ≠ [] := by
  intro h1
  have h2 := congrArg List.length h1
  rw [List.length_set] at h2
  exact h (List.length_eq_zero.mp h2)

theorem exited_of_mem_set {ws : List Worker} {i : Nat} {x : Worker}
    (hx : x ≠ .exited) (h : Worker.exited ∈ ws.set i x) : Worker.exited ∈ ws := by
  rcases List.mem_or_eq_of_mem_set h with h1 | h1
  · exact h1
  · exact absurd h1.symm hx

theorem mkFileInfo_some {key : String} {n : Nat} {body : ReadCloser} :
    mkFileInfo key (some { ContentLength := some n, Body := body })
      = some { Name := key, Size := n, Body := body } := rfl

theorem good_move {env : Env} {pages : List ListObjectsOutput}
    {content : String → List Byte} (hget : Fetches env content) {s u : State}
    (hrun : s.status = .running) (hg : Good env pages content s) (hm : Move env s u) :
    Good env pages content u := by
  obtain ⟨hst, htar, hbod, hlis, hacct, hcl, hex, hdn, hpool⟩ := hg
  cases hm with
  | listErr next e h1 h2 =>
    unfold ListerOk at hlis
    rw [h1] at hlis
    obtain ⟨p, ps, _, h4, _⟩ := Listing_inv hlis.2
    rw [h4] at h2
    cases h2
  | listOk next list h1 h2 =>
    unfold ListerOk at hlis
    rw [h1] at hlis
    obtain ⟨hc, hl⟩ := hlis
    obtain ⟨p, ps, h3, h4, h5⟩ := Listing_inv hl
    rw [h4] at h2
    cases h2
    have h6 : pages.drop (s.listReqs.length + 1) = ps := drop_succ_of_drop_eq_cons h3
    refine ⟨hst, htar, hbod, ?_, ?_, hcl, hex, hdn, hpool⟩
    · unfold ListerOk
      simp only [List.length_append, List.length_singleton, h6]
      refine ⟨hc, ?_⟩
      rcases h5 with h5 | h5
      · exact Or.inl h5
      · exact Or.inr h5.2
    · intro k
      have h7 := hacct k
      rw [h1, h3, objectsOf_cons, keysOf_append] at h7
      simp only [List.length_append, List.length_singleton, h6, Lister.rest]
      simp only [Lister.rest, keysOf_nil, List.count_nil, List.count_append] at h7
      omega
  | pageShort next len h1 h2 =>
    unfold ListerOk at hlis
    rw [h1] at hlis
    obtain ⟨hc, hl⟩ := hlis
    have h3 : pages.drop s.listReqs.length = [] := by
      rcases hl with hl | hl
      · exact hl.1
      · omega
    refine ⟨hst, htar, hbod, ?_, ?_, hcl, ?_, hdn, hpool⟩
    · exact ⟨rfl, h3⟩
    · intro k
      have h7 := hacct k
      rw [h1] at h7
      exact h7
    · intro h4
      have h5 := (hex h4).1
      rw [hc] at h5
      cases h5
  | pageFull next len h1 h2 =>
    unfold ListerOk at hlis
    rw [h1] at hlis
    obtain ⟨hc, hl⟩ := hlis
    refine ⟨hst, htar, hbod, ?_, ?_, hcl, hex, hdn, hpool⟩
    · rcases hl with hl | hl
      · omega
      · exact ⟨hc, hl.2⟩
    · intro k
      have h7 := hacct k
      rw [h1] at h7
      exact h7
  | skip next i rest len h1 h2 =>
    unfold ListerOk at hlis
    rw [h1] at hlis
    refine ⟨hst, htar, hbod, hlis, ?_, hcl, hex, hdn, hpool⟩
    intro k
    have h7 := hacct k
    rw [h1] at h7
    simp only [Lister.rest, keysOf_cons_dir rest h2] at h7
    exact h7
  | sendPanic next i rest len h1 h2 h3 =>
    unfold ListerOk at hlis
    rw [h1] at hlis
    rw [hlis.1] at h3
    cases h3
  | send next i rest len h1 h2 h3 h4 =>
    unfold ListerOk at hlis
    rw [h1] at hlis
    refine ⟨hst, htar, hbod, hlis, ?_, hcl, ?_, hdn, hpool⟩
    · intro k
      have h7 := hacct k
      rw [h1] at h7
      simp only [Lister.rest, keysOf_cons_key rest h2, List.count_cons] at h7
      simp only [Lister.rest, List.count_append, List.count_cons, List.count_nil]
      omega
    · intro h5
      have h6 := (hex h5).1
      rw [h3] at h6
      cases h6
  | recv i key q h1 h2 =>
    refine ⟨hst, htar, hbod, hlis, ?_, clean_set hcl trivial, ?_, ?_, set_ne_nil _ _ hpool⟩
    · intro k
      have h7 := hacct k
      have h8 : total (fun w => w.held.count k) (s.workers.set i (.fetching key))
          + List.count k ([] : List String)
          = total (fun w => w.held.count k) s.workers + List.count k [key] :=
        total_set (fun w => w.held.count k) s.workers i _ (.fetching key) h1
      rw [h2] at h7
      simp only [List.count_cons, List.count_nil] at h7 h8
      simp only []
      omega
    · intro h5
      have h6 := (hex (exited_of_mem_set (by simp) h5)).2
      rw [h2] at h6
      cases h6
    · intro h5
      have h6 := hdn h5 _ (List.getElem?_mem h1)
      cases h6
  | exit i h1 h2 h3 =>
    refine ⟨hst, htar, hbod, hlis, ?_, clean_set hcl trivial, ?_, ?_, set_ne_nil _ _ hpool⟩
    · intro k
      have h7 := hacct k
      have h8 : total (fun w => w.held.count k) (s.workers.set i .exited)
          + List.count k ([] : List String)
          = total (fun w => w.held.count k) s.workers + List.count k ([] : List String) :=
        total_set (fun w => w.held.count k) s.workers i _ .exited h1
      simp only [List.count_nil] at h8
      simp only []
      omega
    · intro _
      exact ⟨h3, h2⟩
    · intro h5
      have h6 := hdn h5 _ (List.getElem?_mem h1)
      cases h6
  | fetchEOF i key h1 h2 =>
    obtain ⟨body, hb, _, _⟩ := hget s.nGet key
    rw [hb] at h2
    cases h2
  | fetchFatal i key e h1 h2 h3 =>
    obtain ⟨body, hb, _, _⟩ := hget s.nGet key
    rw [hb] at h2
    cases h2
  | fetchNil i key h1 h2 h3 =>
    obtain ⟨body, hb, _, _⟩ := hget s.nGet key
    rw [hb] at h3
    cases h3
  | fetchOk i key fi h1 h2 h3 =>
    obtain ⟨body, hb, hb1, hb2⟩ := hget s.nGet key
    rw [hb] at h3
    have h4 : fi = { Name := key, Size := (content key).length, Body := body } := by
      have h5 : some fi = some { Name := key, Size := (content key).length, Body := body } :=
        h3.symm.trans mkFileInfo_some
      exact Option.some.inj h5
    subst h4
    refine ⟨hst, htar, hbod, hlis, ?_, clean_set hcl ?_, ?_, ?_, set_ne_nil _ _ hpool⟩
    · intro k
      have h7 := hacct k
      have h8 : total (fun w => w.held.count k) (s.workers.set i
            (.handing { Name := key, Size := (content key).length, Body := body }))
          + List.count k [key]
          = total (fun w => w.held.count k) s.workers + List.count k [key] :=
        total_set (fun w => w.held.count k) s.workers i _
          (.handing { Name := key, Size := (content key).length, Body := body }) h1
      simp only []
      omega
    · exact ⟨hb1, by rw [hb1], hb2⟩
    · intro h5
      exact hex (exited_of_mem_set (by simp) h5)
    · intro h5
      have h6 := hdn h5 _ (List.getElem?_mem h1)
      cases h6
  | requeuePanic i key resp h1 h2 => exact absurd (hcl _ (List.getElem?_mem h1)) id
  | requeueNil i key resp h1 h2 h3 h4 => exact absurd (hcl _ (List.getElem?_mem h1)) id
  | requeueOk i key resp fi h1 h2 h3 h4 => exact absurd (hcl _ (List.getElem?_mem h1)) id
  | handPanic i fi h1 h2 =>
    have h6 := hdn h2 _ (List.getElem?_mem h1)
    cases h6
  | hand i fi t h1 h2 h3 =>
    obtain ⟨c1, c2, c3⟩ : fi.Body.content = content fi.Name ∧
        fi.Body.content.length = fi.Size ∧ fi.Body.readErr = none :=
      hcl (.handing fi) (List.getElem?_mem h1)
    obtain ⟨r1, r2, r3⟩ := serveRecord_exact env.lib (htar hrun) t fi c2 c3
    refine ⟨?_, ?_, ?_, hlis, ?_, clean_set hcl trivial, ?_, ?_, set_ne_nil _ _ hpool⟩
    · left
      simp only [r1]
    · intro _
      exact r2
    · intro e he
      simp only [r3] at he
      rcases List.mem_append.mp he with h5 | h5
      · exact hbod e h5
      · rw [List.mem_singleton.mp h5]
        exact c1
    · intro k
      have h7 := hacct k
      have h8 : total (fun w => w.held.count k) (s.workers.set i .idle)
          + List.count k [fi.Name]
          = total (fun w => w.held.count k) s.workers + List.count k ([] : List String) :=
        total_set (fun w => w.held.count k) s.workers i _ .idle h1
      simp only [List.count_nil] at h8
      simp only [r3, List.map_append, List.count_append, List.map_cons, List.map_nil]
      have h9 : (headerOf t fi).Name = fi.Name := rfl
      rw [h9]
      omega
    · intro h5
      exact hex (exited_of_mem_set (by simp) h5)
    · intro h5
      rw [h2] at h5
      cases h5
  | closeDone h1 h2 =>
    refine ⟨?_, htar, hbod, hlis, hacct, hcl, hex, ?_, hpool⟩
    · left
      exact hrun
    · intro _
      exact h1
  | capture h1 => exact ⟨hst, htar, hbod, hlis, hacct, hcl, hex, hdn, hpool⟩
  | finished t h1 h2 =>
    refine ⟨?_, ?_, ?_, hlis, ?_, hcl, hex, hdn, hpool⟩
    · right
      exact ⟨by rw [finish_good env.lib (htar hrun)], h2⟩
    · intro h3
      cases h3
    · intro e he
      simp only [finish_entries] at he
      exact hbod e he
    · intro k
      simp only [finish_entries]
      exact hacct k

theorem good_step {env : Env} {pages : List ListObjectsOutput}
    {content : String → List Byte} (hget : Fetches env content) {s t : State} {a : Actor}
    (hg : Good env pages content s) (h : step env s a = some t) :
    Good env pages content t := by
  obtain ⟨hrun, u, hm, rfl⟩ := step_move h
  obtain ⟨a1, a2, a3, a4, a5, a6, a7, a8, a9⟩ := good_move hget hrun hg hm
  exact ⟨a1, a2, a3, a4, a5, a6, a7, a8, a9⟩

theorem good_reachable {env : Env} {pages : List ListObjectsOutput}
    {content : String → List Byte} (hget : Fetches env content) {s0 s : State}
    (h0 : Good env pages content s0) (h : Reachable env s0 s) :
    Good env pages content s := by
  induction h with
  | start => exact h0
  | next a _ hs ih => exact good_step hget ih hs

theorem reachable_trans {env : Env} {s0 s t : State} (h1 : Reachable env s0 s)
    (h2 : Reachable env s t) : Reachable env s0 t := by
  induction h2 with
  | start => exact h1
  | next a _ hs ih => exact Reachable.next a ih hs

theorem reachable_run (env : Env) (sched : List Actor) :
    ∀ s0 s : State, Reachable env s0 s → Reachable env s0 (run env s sched) := by
  induction sched with
  | nil =>
    intro s0 s h
    exact h
  | cons a as ih =>
    intro s0 s h
    unfold run
    split
    · rename_i t ht
      exact ih s0 t (Reachable.next a h ht)
    · exact ih s0 s h

/-- When the run has returned, the archive holds exactly the listed objects. -/
theorem good_final {env : Env} {pages : List ListObjectsOutput}
    {content : String → List Byte} {s : State} (hg : Good env pages content s)
    (err : Option String) (hret : s.status = .returned err) :
    err = none ∧ (entryPairs s.tarIo).Perm (expectedPairs pages content) := by
  obtain ⟨hst, _, hbod, hlis, hacct, _, hex, hdn, hpool⟩ := hg
  rcases hst with hst | ⟨hst, hdc⟩
  · rw [hst] at hret
    cases hret
  · have he : err = none := by
      rw [hst] at hret
      cases hret
      rfl
    refine ⟨he, ?_⟩
    have hall := hdn hdc
    obtain ⟨w, hw⟩ := List.exists_mem_of_ne_nil _ hpool
    have hw2 : Worker.exited ∈ s.workers := by
      have := hall w hw
      rw [this] at hw
      exact hw
    obtain ⟨hc, hq⟩ := hex hw2
    have hl : s.lister = .done ∧ pages.drop s.listReqs.length = [] := by
      unfold ListerOk at hlis
      cases hls : s.lister with
      | request next =>
        rw [hls] at hlis
        rw [hlis.1] at hc
        cases hc
      | push next rest len =>
        rw [hls] at hlis
        rw [hlis.1] at hc
        cases hc
      | done =>
        rw [hls] at hlis
        exact ⟨rfl, hlis.2⟩
    have hnames : (s.tarIo.entries.map (fun e => e.hdr.Name)).Perm (keysOf (objectsOf pages)) := by
      rw [List.perm_iff_count]
      intro k
      have h1 := hacct k
      have h2 : total (fun w => w.held.count k) s.workers = 0 := by
        apply total_eq_zero
        intro x hx
        rw [hall x hx]
        rfl
      rw [hl.1, hl.2, hq, h2] at h1
      simpa [Lister.rest, keysOf, objectsOf] using h1
    have hpairs : entryPairs s.tarIo
        = (s.tarIo.entries.map (fun e => e.hdr.Name)).map (fun k => (k, content k)) := by
      unfold entryPairs
      rw [List.map_map]
      apply List.map_congr_left
      intro e he2
      simp [hbod e he2]
    rw [hpairs]
    exact hnames.map _

theorem step_lister_some {env : Env} {s u : State} (hrun : s.status = .running)
    (h : listBucket env s = some u) : ∃ t, step env s .lister = some t := by
  refine ⟨{ u with now := u.now + 1 }, ?_⟩
  simp [step, hrun, h]

theorem step_worker_some {env : Env} {s u : State} {i : Nat} (hrun : s.status = .running)
    (h : fetchWorker env s i = some u) : ∃ t, step env s (.worker i) = some t := by
  refine ⟨{ u with now := u.now + 1 }, ?_⟩
  simp [step, hrun, h]

theorem step_supervisor_some {env : Env} {s u : State} (hrun : s.status = .running)
    (h : supervisor s = some u) : ∃ t, step env s .supervisor = some t := by
  refine ⟨{ u with now := u.now + 1 }, ?_⟩
  simp [step, hrun, h]

theorem step_main_some {env : Env} {s u : State} (hrun : s.status = .running)
    (h : mainLoop env s = some u) : ∃ t, step env s .main = some t := by
  refine ⟨{ u with now := u.now + 1 }, ?_⟩
  simp [step, hrun, h]

/-- No deadlock: while the run has not returned, some goroutine can move. -/
theorem good_progress {env : Env} {pages : List ListObjectsOutput}
    {content : String → List Byte} (hget : Fetches env content) {s : State}
    (hg : Good env pages content s) (hrun : s.status = .running) :
    ∃ a t, step env s a = some t := by
  obtain ⟨_, _, _, hlis, _, hcl, hex, hdn, hpool⟩ := hg
  cases hm : s.modstamp with
  | none =>
    exact ⟨.main, step_main_some hrun (u := { s with modstamp := some s.now })
      (by simp [mainLoop, hm])⟩
  | some t0 =>
    by_cases hbusy : ∃ w ∈ s.workers, w ≠ .idle ∧ w ≠ .exited
    · obtain ⟨w, hw, h1, h2⟩ := hbusy
      obtain ⟨i, hi⟩ := List.getElem?_of_mem hw
      refine ⟨.worker i, ?_⟩
      cases w with
      | idle => exact absurd rfl h1
      | exited => exact absurd rfl h2
      | requeue key resp => exact absurd (hcl _ hw) id
      | fetching key =>
        obtain ⟨body, hb, _, _⟩ := hget s.nGet key
        exact step_worker_some hrun (u := buildInfo { s with nGet := s.nGet + 1 } i key
          (env.s3.GetObject s.nGet { Key := key, Bucket := env.bucket }).resp)
          (by simp [fetchWorker, hi, hb])
      | handing fi =>
        have hd : s.doneClosed = false := by
          cases hdc : s.doneClosed with
          | false => rfl
          | true =>
            have := hdn hdc _ hw
            cases this
        exact step_worker_some hrun
          (u := { s with
            tarIo := (serveRecord env.lib t0 s.tarIo fi).1
            handed := s.handed ++ [fi]
            workers := s.workers.set i .idle
            status := match (serveRecord env.lib t0 s.tarIo fi).2 with
              | some msg => .fatal msg
              | none => .running })
          (by simp [fetchWorker, hi, hd, hm])
    · have hrest : ∀ w ∈ s.workers, w = .idle ∨ w = .exited := by
        intro w hw
        by_contra hc
        exact hbusy ⟨w, hw, fun h => hc (Or.inl h), fun h => hc (Or.inr h)⟩
      by_cases hidle : Worker.idle ∈ s.workers
      · obtain ⟨i, hi⟩ := List.getElem?_of_mem hidle
        cases hq : s.workChan with
        | cons key q =>
          exact ⟨.worker i, step_worker_some hrun
            (u := { s with workChan := q, workers := s.workers.set i (.fetching key) })
            (by simp [fetchWorker, hi, hq])⟩
        | nil =>
          cases hc : s.workClosed with
          | true =>
            exact ⟨.worker i, step_worker_some hrun
              (u := { s with workers := s.workers.set i .exited })
              (by simp [fetchWorker, hi, hq, hc])⟩
          | false =>
            refine ⟨.lister, ?_⟩
            unfold ListerOk at hlis
            cases hls : s.lister with
            | done =>
              rw [hls] at hlis
              rw [hlis.1] at hc
              cases hc
            | request next =>
              rw [hls] at hlis
              obtain ⟨p, ps, _, h4, _⟩ := Listing_inv hlis.2
              exact step_lister_some hrun
                (u := { s with
                  lister := .push p.NextMarker p.Contents p.Contents.length
                  listReqs := s.listReqs ++ [listRequest env next] })
                (by simp [listBucket, hls, h4])
            | push next rest len =>
              cases rest with
              | nil =>
                by_cases hlen : len < pageSize
                · exact step_lister_some hrun
                    (u := { s with lister := .done, workClosed := true })
                    (by simp [listBucket, hls, hlen])
                · exact step_lister_some hrun
                    (u := { s with lister := .request next })
                    (by simp [listBucket, hls, hlen])
              | cons o rest =>
                by_cases hs : HasSuffix o.Key "/" = true
                · exact step_lister_some hrun
                    (u := { s with lister := .push next rest len })
                    (by simp [listBucket, hls, hs])
                · exact step_lister_some hrun
                    (u := { s with workChan := [o.Key], lister := .push next rest len })
                    (by simp [listBucket, hls, hs, hq, hc, chanSend, workChanCap])
      · have hall : ∀ w ∈ s.workers, w = .exited := by
          intro w hw
          rcases hrest w hw with h | h
          · rw [h] at hw
            exact absurd hw hidle
          · exact h
        cases hd : s.doneClosed with
        | true =>
          exact ⟨.main, step_main_some hrun
            (u := { s with
              tarIo := (finish env.lib s.tarIo).1
              status := .returned (finish env.lib s.tarIo).2 })
            (by simp [mainLoop, hm, hd])⟩
        | false =>
          refine ⟨.supervisor, step_supervisor_some hrun (u := { s with doneClosed := true }) ?_⟩
          unfold supervisor
          have h1 : s.workers.all (fun w => decide (w = .exited)) = true := by
            rw [List.all_eq_true]
            intro w hw
            simpa using hall w hw
          simp [h1, hd]

theorem workLeft_move {env : Env} {pages : List ListObjectsOutput}
    {content : String → List Byte} (hget : Fetches env content) {s u : State}
    (hrun : s.status = .running) (hg : Good env pages content s) (hm : Move env s u) :
    workLeft pages u < workLeft pages s := by
  obtain ⟨_, htar, _, hlis, _, hcl, _, _, _⟩ := hg
  unfold workLeft
  rw [hrun]
  cases hm with
  | listErr next e h1 h2 =>
    unfold ListerOk at hlis
    rw [h1] at hlis
    obtain ⟨p, ps, _, h4, _⟩ := Listing_inv hlis.2
    rw [h4] at h2
    cases h2
  | listOk next list h1 h2 =>
    unfold ListerOk at hlis
    rw [h1] at hlis
    obtain ⟨p, ps, h3, h4, h5⟩ := Listing_inv hlis.2
    rw [h4] at h2
    cases h2
    have h6 : pages.drop (s.listReqs.length + 1) = ps := drop_succ_of_drop_eq_cons h3
    simp only [List.length_append, List.length_singleton, h6, h3, h1, hrun, Lister.weight,
      pagesWeight, List.map_cons, List.sum_cons, if_true]
    omega
  | pageShort next len h1 h2 =>
    simp only [h1, hrun, Lister.weight, List.length_nil, if_true]
    omega
  | pageFull next len h1 h2 =>
    simp only [h1, hrun, Lister.weight, List.length_nil, if_true]
    omega
  | skip next i rest len h1 h2 =>
    simp only [h1, hrun, Lister.weight, List.length_cons, if_true]
    omega
  | sendPanic next i rest len h1 h2 h3 =>
    simp
  | send next i rest len h1 h2 h3 h4 =>
    simp only [h1, hrun, Lister.weight, List.length_cons, List.length_append,
      List.length_singleton, List.length_nil, if_true]
    omega
  | recv i key q h1 h2 =>
    have h8 : total Worker.weight (s.workers.set i (.fetching key)) + 1
        = total Worker.weight s.workers + 3 :=
      total_set Worker.weight s.workers i _ (.fetching key) h1
    simp only [h2, hrun, List.length_cons, if_true]
    omega
  | exit i h1 h2 h3 =>
    have h8 : total Worker.weight (s.workers.set i .exited) + 1
        = total Worker.weight s.workers + 0 :=
      total_set Worker.weight s.workers i _ .exited h1
    simp only [hrun, if_true]
    omega
  | fetchEOF i key h1 h2 =>
    obtain ⟨body, hb, _, _⟩ := hget s.nGet key
    rw [hb] at h2
    cases h2
  | fetchFatal i key e h1 h2 h3 =>
    simp
  | fetchNil i key h1 h2 h3 =>
    simp
  | fetchOk i key fi h1 h2 h3 =>
    have h8 : total Worker.weight (s.workers.set i (.handing fi)) + 3
        = total Worker.weight s.workers + 2 :=
      total_set Worker.weight s.workers i _ (.handing fi) h1
    simp only [hrun, if_true]
    omega
  | requeuePanic i key resp h1 h2 => exact absurd (hcl _ (List.getElem?_mem h1)) id
  | requeueNil i key resp h1 h2 h3 h4 => exact absurd (hcl _ (List.getElem?_mem h1)) id
  | requeueOk i key resp fi h1 h2 h3 h4 => exact absurd (hcl _ (List.getElem?_mem h1)) id
  | handPanic i fi h1 h2 =>
    simp
  | hand i fi t h1 h2 h3 =>
    have h8 : total Worker.weight (s.workers.set i .idle) + 2
        = total Worker.weight s.workers + 1 :=
      total_set Worker.weight s.workers i _ .idle h1
    obtain ⟨_, c2, c3⟩ : fi.Body.content = content fi.Name ∧
        fi.Body.content.length = fi.Size ∧ fi.Body.readErr = none :=
      hcl (.handing fi) (List.getElem?_mem h1)
    obtain ⟨r1, _, _⟩ := serveRecord_exact env.lib (htar hrun) t fi c2 c3
    simp only [r1, if_true]
    omega
  | closeDone h1 h2 =>
    simp only [hrun, h2, if_true]
    simp
  | capture h1 =>
    simp only [hrun, h1, if_true]
    simp
  | finished t h1 h2 =>
    simp

theorem workLeft_step {env : Env} {pages : List ListObjectsOutput}
    {content : String → List Byte} (hget : Fetches env content) {s t : State} {a : Actor}
    (hg : Good env pages content s) (h : step env s a = some t) :
    workLeft pages t < workLeft pages s := by
  obtain ⟨hrun, u, hm, rfl⟩ := step_move h
  have h1 : workLeft pages u < workLeft pages s := workLeft_move hget hrun hg hm
  exact h1

/-- Every run can be completed: from any state of the run, `tarBucket` can return. -/
theorem good_completes {env : Env} {pages : List ListObjectsOutput}
    {content : String → List Byte} (hget : Fetches env content) :
    ∀ (n : Nat) (s : State), workLeft pages s ≤ n → Good env pages content s →
      ∃ t, Reachable env s t ∧ t.status = .returned none := by
  intro n
  induction n with
  | zero =>
    intro s hn hg
    rcases hg.status with h | h
    · obtain ⟨a, t, ht⟩ := good_progress hget hg h
      have := workLeft_step hget hg ht
      omega
    · exact ⟨s, Reachable.start, h.1⟩
  | succ n ih =>
    intro s hn hg
    rcases hg.status with h | h
    · obtain ⟨a, t, ht⟩ := good_progress hget hg h
      have h1 := workLeft_step hget hg ht
      obtain ⟨t2, h2, h3⟩ := ih t (by omega) (good_step hget hg ht)
      exact ⟨t2, reachable_trans (Reachable.next a Reachable.start ht) h2, h3⟩
    · exact ⟨s, Reachable.start, h.1⟩

theorem modstamp_move {env : Env} {s u : State} (hm : Move env s u) :
    (∀ t, s.modstamp = some t → u.modstamp = some t) ∧
    (s.modstamp = none → u.modstamp = none ∨ u.modstamp = some s.now) := by
  cases hm with
  | capture h1 =>
    refine ⟨?_, fun _ => Or.inr rfl⟩
    intro t ht
    rw [h1] at ht
    cases ht
  | listErr next e h1 h2 => exact ⟨fun _ h => h, fun h => Or.inl h⟩
  | listOk next list h1 h2 => exact ⟨fun _ h => h, fun h => Or.inl h⟩
  | pageShort next len h1 h2 => exact ⟨fun _ h => h, fun h => Or.inl h⟩
  | pageFull next len h1 h2 => exact ⟨fun _ h => h, fun h => Or.inl h⟩
  | skip next i rest len h1 h2 => exact ⟨fun _ h => h, fun h => Or.inl h⟩
  | sendPanic next i rest len h1 h2 h3 => exact ⟨fun _ h => h, fun h => Or.inl h⟩
  | send next i rest len h1 h2 h3 h4 => exact ⟨fun _ h => h, fun h => Or.inl h⟩
  | recv i key q h1 h2 => exact ⟨fun _ h => h, fun h => Or.inl h⟩
  | exit i h1 h2 h3 => exact ⟨fun _ h => h, fun h => Or.inl h⟩
  | fetchEOF i key h1 h2 => exact ⟨fun _ h => h, fun h => Or.inl h⟩
  | fetchFatal i key e h1 h2 h3 => exact ⟨fun _ h => h, fun h => Or.inl h⟩
  | fetchNil i key h1 h2 h3 => exact ⟨fun _ h => h, fun h => Or.inl h⟩
  | fetchOk i key fi h1 h2 h3 => exact ⟨fun _ h => h, fun h => Or.inl h⟩
  | requeuePanic i key resp h1 h2 => exact ⟨fun _ h => h, fun h => Or.inl h⟩
  | requeueNil i key resp h1 h2 h3 h4 => exact ⟨fun _ h => h, fun h => Or.inl h⟩
  | requeueOk i key resp fi h1 h2 h3 h4 => exact ⟨fun _ h => h, fun h => Or.inl h⟩
  | handPanic i fi h1 h2 => exact ⟨fun _ h => h, fun h => Or.inl h⟩
  | hand i fi t h1 h2 h3 => exact ⟨fun _ h => h, fun h => Or.inl h⟩
  | closeDone h1 h2 => exact ⟨fun _ h => h, fun h => Or.inl h⟩
  | finished t h1 h2 => exact ⟨fun _ h => h, fun h => Or.inl h⟩

theorem modstamp_step {env : Env} {s t : State} {a : Actor} (h : step env s a = some t) :
    (∀ m, s.modstamp = some m → t.modstamp = some m) ∧
    (s.modstamp = none → t.modstamp = none ∨ t.modstamp = some s.now) := by
  obtain ⟨_, u, hm, rfl⟩ := step_move h
  have h1 := modstamp_move hm
  exact h1

theorem modstamp_reachable {env : Env} {s t : State} (h : Reachable env s t) (m : Time)
    (hm : s.modstamp = some m) : t.modstamp = some m := by
  induction h with
  | start => exact hm
  | next a _ hs ih => exact (modstamp_step hs).1 m ih

theorem entry_of_headers {s : State} {t : Time}
    (h : List.Sublist s.tarIo.headers (s.handed.map (headerOf t))) :
    ∀ e ∈ s.tarIo.entries, ∃ fi ∈ s.handed, e.hdr = headerOf t fi := by
  intro e he
  have h1 : e.hdr ∈ s.tarIo.headers := List.mem_map.mpr ⟨e, he, rfl⟩
  have h2 := h.subset h1
  obtain ⟨fi, h3, h4⟩ := List.mem_map.mp h2
  exact ⟨fi, h3, h4.symm⟩

theorem fmodeOf_file {name : String} (h : HasSuffix name "/" = false) :
    fmodeOf name = 0o644 := by
  simp [fmodeOf, h]

theorem pagingInv_tarBucket (env : Env) (w : Sink) (compress : Bool) (t0 : Time) :
    PagingInv env (tarBucket env w compress t0) := by
  refine ⟨?_, ?_, ?_, ?_⟩
  · intro r hr
    simp [tarBucket] at hr
  · intro i r hr
    simp [tarBucket] at hr
  · intro _
    exact Or.inl ⟨rfl, rfl⟩
  · intro h
    simp [tarBucket] at h

theorem paging_append {env : Env} {s : State} (hi : PagingInv env s)
    (hrun : s.status = .running) {next : Option String} (h1 : s.lister = .request next) :
    (∀ r, (s.listReqs ++ [listRequest env next])[0]? = some r →
      r = listRequest env (some "")) ∧
    (∀ i r, (s.listReqs ++ [listRequest env next])[i + 1]? = some r →
      ∃ r0 p, (s.listReqs ++ [listRequest env next])[i]? = some r0 ∧
        env.s3.ListObjects i r0 = .ok p ∧
        pageSize ≤ p.Contents.length ∧ r = listRequest env p.NextMarker) := by
  have hl := hi.lister hrun
  unfold ListerAt at hl
  rw [h1] at hl
  constructor
  · intro r hr
    rcases hl with ⟨h2, h3⟩ | ⟨p, ⟨r0, _, h5, _⟩, _, _⟩
    · rw [h2] at hr
      simp only [List.nil_append, List.getElem?_cons_zero, Option.some.injEq] at hr
      rw [← hr, h3]
    · rw [List.getElem?_append_left h5] at hr
      exact hi.first r hr
  · intro i r hr
    by_cases hlt : i + 1 < s.listReqs.length
    · rw [List.getElem?_append_left hlt] at hr
      obtain ⟨r0, p, h2, h3, h4, h5⟩ := hi.chain i r hr
      exact ⟨r0, p, by rw [List.getElem?_append_left (by omega)]; exact h2, h3, h4, h5⟩
    · by_cases heq : i + 1 = s.listReqs.length
      · rw [List.getElem?_append_right (by omega)] at hr
        have h0 : i + 1 - s.listReqs.length = 0 := by omega
        rw [h0] at hr
        simp only [List.getElem?_cons_zero, Option.some.injEq] at hr
        rcases hl with ⟨h2, _⟩ | ⟨p, ⟨r0, h4, h5, h6⟩, h7, h8⟩
        · rw [h2] at heq
          simp at heq
        · have h9 : s.listReqs.length - 1 = i := by omega
          rw [h9] at h4 h6
          refine ⟨r0, p, ?_, h6, h7, ?_⟩
          · rw [List.getElem?_append_left (by omega)]
            exact h4
          · rw [← hr, h8]
      · have h2 : (s.listReqs ++ [listRequest env next]).length ≤ i + 1 := by
          simp only [List.length_append, List.length_singleton]
          omega
        rw [List.getElem?_eq_none h2] at hr
        cases hr

theorem lastPage_append {env : Env} {rs : List ListObjectsRequest} {r : ListObjectsRequest}
    {p : ListObjectsOutput} (h : env.s3.ListObjects rs.length r = .ok p) :
    LastPage env (rs ++ [r]) p := by
  refine ⟨r, ?_, by simp, ?_⟩
  · simp
  · simpa using h

theorem pagingInv_move {env : Env} {s u : State} (hrun : s.status = .running)
    (hi : PagingInv env s) (hm : Move env s u) : PagingInv env u := by
  have hf := hi.first
  have hc := hi.chain
  have hl := hi.lister
  have hcl := hi.closed
  cases hm with
  | listErr next e h1 h2 =>
    obtain ⟨a1, a2⟩ := paging_append hi hrun h1
    refine ⟨a1, a2, ?_, ?_⟩
    · intro h
      cases h
    · intro h
      have := (hcl h).1
      rw [h1] at this
      cases this
  | listOk next list h1 h2 =>
    obtain ⟨a1, a2⟩ := paging_append hi hrun h1
    refine ⟨a1, a2, ?_, ?_⟩
    · intro _
      exact ⟨list, lastPage_append h2, rfl, rfl⟩
    · intro h
      have := (hcl h).1
      rw [h1] at this
      cases this
  | pageShort next len h1 h2 =>
    have h3 := hl hrun
    unfold ListerAt at h3
    rw [h1] at h3
    obtain ⟨p, h4, h5, _⟩ := h3
    have h6 : ∃ p, LastPage env s.listReqs p ∧ p.Contents.length < pageSize :=
      ⟨p, h4, by omega⟩
    exact ⟨hf, hc, fun _ => h6, fun _ => ⟨rfl, h6⟩⟩
  | pageFull next len h1 h2 =>
    have h3 := hl hrun
    unfold ListerAt at h3
    rw [h1] at h3
    obtain ⟨p, h4, h5, h6⟩ := h3
    refine ⟨hf, hc, fun _ => Or.inr ⟨p, h4, by omega, h6⟩, ?_⟩
    intro h
    have := (hcl h).1
    rw [h1] at this
    cases this
  | skip next i rest len h1 h2 =>
    have h3 := hl hrun
    unfold ListerAt at h3
    rw [h1] at h3
    refine ⟨hf, hc, fun _ => h3, ?_⟩
    intro h
    have := (hcl h).1
    rw [h1] at this
    cases this
  | sendPanic next i rest len h1 h2 h3 =>
    refine ⟨hf, hc, ?_, hcl⟩
    intro h
    cases h
  | send next i rest len h1 h2 h3 h4 =>
    have h5 := hl hrun
    unfold ListerAt at h5
    rw [h1] at h5
    refine ⟨hf, hc, fun _ => h5, ?_⟩
    intro h
    have := (hcl h).1
    rw [h1] at this
    cases this
  | recv i key q h1 h2 => exact ⟨hf, hc, fun _ => hl hrun, hcl⟩
  | exit i h1 h2 h3 => exact ⟨hf, hc, fun _ => hl hrun, hcl⟩
  | fetchEOF i key h1 h2 => exact ⟨hf, hc, fun _ => hl hrun, hcl⟩
  | fetchFatal i key e h1 h2 h3 => exact ⟨hf, hc, fun _ => hl hrun, hcl⟩
  | fetchNil i key h1 h2 h3 => exact ⟨hf, hc, fun _ => hl hrun, hcl⟩
  | fetchOk i key fi h1 h2 h3 => exact ⟨hf, hc, fun _ => hl hrun, hcl⟩
  | requeuePanic i key resp h1 h2 => exact ⟨hf, hc, fun _ => hl hrun, hcl⟩
  | requeueNil i key resp h1 h2 h3 h4 => exact ⟨hf, hc, fun _ => hl hrun, hcl⟩
  | requeueOk i key resp fi h1 h2 h3 h4 => exact ⟨hf, hc, fun _ => hl hrun, hcl⟩
  | handPanic i fi h1 h2 => exact ⟨hf, hc, fun _ => hl hrun, hcl⟩
  | hand i fi t h1 h2 h3 => exact ⟨hf, hc, fun _ => hl hrun, hcl⟩
  | closeDone h1 h2 => exact ⟨hf, hc, fun _ => hl hrun, hcl⟩
  | capture h1 => exact ⟨hf, hc, fun _ => hl hrun, hcl⟩
  | finished t h1 h2 => exact ⟨hf, hc, fun _ => hl hrun, hcl⟩

theorem pagingInv_step {env : Env} {s t : State} {a : Actor} (hi : PagingInv env s)
    (h : step env s a = some t) : PagingInv env t := by
  obtain ⟨hrun, u, hm, rfl⟩ := step_move h
  obtain ⟨a1, a2, a3, a4⟩ := pagingInv_move hrun hi hm
  exact ⟨a1, a2, a3, a4⟩

theorem pagingInv_reachable {env : Env} {s0 s : State} (h0 : PagingInv env s0)
    (h : Reachable env s0 s) : PagingInv env s := by
  induction h with
  | start => exact h0
  | next a _ hs ih => exact pagingInv_step ih hs

theorem listerRun_step {env : Env} {s t : State} (h : step env s .lister = some t) (k : Nat) :
    listerRun env (k + 1) s = listerRun env k { t with workChan := [] } := by
  simp [listerRun, h]

theorem listerRun_stuck {env : Env} {s : State} (h : step env s .lister = none) (k : Nat) :
    listerRun env k s = s := by
  cases k with
  | zero => rfl
  | succ k => simp [listerRun, h]

/-- On its own `listBucket` works through the rest of the current page. -/
theorem listerRun_push (env : Env) (next : Option String) (len : Nat) :
    ∀ (rest : List Object) (s : State), s.lister = .push next rest len →
      s.status = .running → s.workClosed = false → s.workChan = [] →
      ∃ s2 : State, s2.lister = .push next [] len ∧ s2.status = .running ∧
        s2.workClosed = false ∧ s2.workChan = [] ∧ s2.listReqs = s.listReqs ∧
        ∀ k, listerRun env (k + rest.length) s = listerRun env k s2 := by
  intro rest
  induction rest with
  | nil =>
    intro s h1 h2 h3 h4
    exact ⟨s, h1, h2, h3, h4, rfl, fun k => rfl⟩
  | cons o rest ih =>
    intro s h1 h2 h3 h4
    by_cases hs : HasSuffix o.Key "/" = true
    · have hstep : step env s .lister
          = some { s with lister := .push next rest len, now := s.now + 1 } := by
        simp [step, h2, listBucket, h1, hs]
      obtain ⟨s2, a1, a2, a3, a4, a5, a6⟩ :=
        ih { s with lister := .push next rest len, now := s.now + 1, workChan := [] }
          rfl h2 h3 rfl
      refine ⟨s2, a1, a2, a3, a4, a5, ?_⟩
      intro k
      show listerRun env ((k + rest.length) + 1) s = _
      rw [listerRun_step hstep]
      exact a6 k
    · have hstep : step env s .lister
          = some { s with
              workChan := [o.Key], lister := .push next rest len, now := s.now + 1 } := by
        simp [step, h2, listBucket, h1, hs, h3, h4, chanSend, workChanCap]
      obtain ⟨s2, a1, a2, a3, a4, a5, a6⟩ :=
        ih { s with lister := .push next rest len, now := s.now + 1, workChan := [] }
          rfl h2 h3 rfl
      refine ⟨s2, a1, a2, a3, a4, a5, ?_⟩
      intro k
      show listerRun env ((k + rest.length) + 1) s = _
      rw [listerRun_step hstep]
      exact a6 k

/-- On its own `listBucket` lists the whole bucket: it issues exactly the requests that
list `pages`, closes the key queue and returns, within a bounded number of moves. -/
theorem listerRun_lists (env : Env) :
    ∀ (pages : List ListObjectsOutput) (next : Option String) (s : State),
      Listing env s.listReqs.length next pages → s.lister = .request next →
      s.status = .running → s.workClosed = false → s.workChan = [] →
      ∃ n, ∀ m, n ≤ m →
        (listerRun env m s).lister = .done ∧ (listerRun env m s).workClosed = true ∧
        (listerRun env m s).listReqs = s.listReqs ++ requestsFor env next pages ∧
        step env (listerRun env m s) .lister = none := by
  intro pages
  induction pages with
  | nil =>
    intro next s hl
    exact absurd hl (by simp [Listing])
  | cons p ps ih =>
    intro next s hl h1 h2 h3 h4
    unfold Listing at hl
    obtain ⟨hp, hrest⟩ := hl
    have hstep : step env s .lister
        = some { s with
            lister := .push p.NextMarker p.Contents p.Contents.length
            listReqs := s.listReqs ++ [listRequest env next]
            now := s.now + 1 } := by
      simp [step, h2, listBucket, h1, hp]
    obtain ⟨s2, a1, a2, a3, a4, a5, a6⟩ :=
      listerRun_push env p.NextMarker p.Contents.length p.Contents
        { s with
          lister := .push p.NextMarker p.Contents p.Contents.length
          listReqs := s.listReqs ++ [listRequest env next]
          now := s.now + 1
          workChan := [] } rfl h2 h3 rfl
    simp only at a5
    rcases hrest with ⟨hps, hlen⟩ | ⟨hps, hlen, hl2⟩
    · have hstep2 : step env s2 .lister
          = some { s2 with lister := .done, workClosed := true, now := s2.now + 1 } := by
        simp [step, a2, listBucket, a1, hlen]
      have hstuck : step env
          { s2 with lister := .done, workClosed := true, now := s2.now + 1, workChan := [] }
          .lister = none := by
        simp [step, a2, listBucket]
      refine ⟨1 + p.Contents.length + 1, ?_⟩
      intro m hm
      obtain ⟨k, hk⟩ : ∃ k, m = ((k + 1) + p.Contents.length) + 1 := ⟨m - (p.Contents.length + 2), by omega⟩
      rw [hk, listerRun_step hstep, a6 (k + 1), listerRun_step hstep2, listerRun_stuck hstuck]
      refine ⟨rfl, rfl, ?_, hstuck⟩
      show s2.listReqs = _
      rw [a5, hps]
      rfl
    · have hstep2 : step env s2 .lister
          = some { s2 with lister := .request p.NextMarker, now := s2.now + 1 } := by
        have hnl : ¬ p.Contents.length < pageSize := by omega
        simp [step, a2, listBucket, a1, hnl]
      have hl3 : Listing env
          (({ s2 with lister := .request p.NextMarker, now := s2.now + 1, workChan := [] } :
            State).listReqs.length) p.NextMarker ps := by
        show Listing env s2.listReqs.length p.NextMarker ps
        rw [a5]
        simpa using hl2
      obtain ⟨n, hn⟩ := ih p.NextMarker
        { s2 with lister := .request p.NextMarker, now := s2.now + 1, workChan := [] }
        hl3 rfl a2 a3 rfl
      refine ⟨n + 1 + p.Contents.length + 1, ?_⟩
      intro m hm
      obtain ⟨k, hk, hk2⟩ : ∃ k, m = ((k + 1) + p.Contents.length) + 1 ∧ n ≤ k :=
        ⟨m - (p.Contents.length + 2), by omega, by omega⟩
      rw [hk, listerRun_step hstep, a6 (k + 1), listerRun_step hstep2]
      obtain ⟨b1, b2, b3, b4⟩ := hn k hk2
      refine ⟨b1, b2, ?_, b4⟩
      rw [b3]
      show s2.listReqs ++ _ = _
      rw [a5]
      simp [requestsFor]

theorem requestsFor_length (env : Env) :
    ∀ (pages : List ListObjectsOutput) (next : Option String),
      (requestsFor env next pages).length = pages.length := by
  intro pages
  induction pages with
  | nil =>
    intro next
    rfl
  | cons p ps ih =>
    intro next
    simp [requestsFor, ih]

theorem step_none_of_ended {env : Env} {s : State} (h : s.status ≠ .running) (a : Actor) :
    step env s a = none := by
  simp [step, h]

theorem reachable_of_ended {env : Env} {s t : State} (h : s.status ≠ .running)
    (hr : Reachable env s t) : t = s := by
  induction hr with
  | start => rfl
  | next a _ hs ih =>
    rw [ih, step_none_of_ended h] at hs
    cases hs

theorem Out_Write_sim (gz : Gzip) {a b : Out} (h : Sim gz a b) (p : List Byte) :
    Sim gz (a.Write gz p).1 (b.Write gz p).1 ∧ (a.Write gz p).2 = (b.Write gz p).2 := by
  obtain ⟨h1, h2, h3, z, chunks, h4, h5, h6⟩ := h
  obtain ⟨a1, a2, a3⟩ := Out_Write_good gz h2 p
  obtain ⟨b1, b2, b3⟩ := Out_Write_good gz h3 p
  refine ⟨⟨?_, a3, b3, (gz.write z p).1, chunks ++ [p], ?_, ?_, ?_⟩, ?_⟩
  · simp [Out.Write, h1]
  · simp [Out.Write, h4]
  · simp [Out.Write, h1, Sink_Write_good h2.1 h2.2, h5]
  · intro more
    have h7 := h6 (p :: more)
    simp only [Out.Write, h4, Sink_Write_good h3.1 h3.2, List.append_assoc,
      List.singleton_append]
    rw [← h7]
    simp [Gzip.emit]
  · apply Prod.ext
    · rw [a2, b2]
    · rw [a1, b1]

theorem Flush_sim (lib : Lib) {a b : TarWriter} (h : TarSim lib.gz a b) :
    TarSim lib.gz (a.Flush lib) (b.Flush lib) := by
  obtain ⟨aw, nb, pad, err, cl, ent⟩ := a
  obtain ⟨bw, nb2, pad2, err2, cl2, ent2⟩ := b
  obtain ⟨h1, h2, h3, h4, h5, h6⟩ := h
  simp only at h1 h2 h3 h4 h5 h6
  subst h1 h2 h3 h4 h5
  unfold TarWriter.Flush
  simp only
  by_cases hn : 0 < nb
  · simp only [hn, if_true]
    exact ⟨rfl, rfl, rfl, rfl, rfl, h6⟩
  · simp only [hn, if_false]
    by_cases hp : 0 < pad
    · simp only [hp, if_true]
      obtain ⟨w1, w2⟩ := Out_Write_sim lib.gz h6 (zeroBlock pad)
      exact ⟨rfl, rfl, congrArg (fun x => x.2) w2, rfl, rfl, w1⟩
    · simp only [hp, if_false]
      exact ⟨rfl, rfl, rfl, rfl, rfl, h6⟩

theorem WriteHeader_sim (lib : Lib) {a b : TarWriter} (h : TarSim lib.gz a b) (hdr : Header) :
    TarSim lib.gz (a.WriteHeader lib hdr).1 (b.WriteHeader lib hdr).1 ∧
      (a.WriteHeader lib hdr).2 = (b.WriteHeader lib hdr).2 := by
  have hf := Flush_sim lib h
  have hs : TarSim lib.gz (if a.err = none then a.Flush lib else a)
      (if b.err = none then b.Flush lib else b) := by
    rw [← h.2.2.1]
    split
    · exact hf
    · exact h
  have hc : a.closed = b.closed := h.2.2.2.1
  unfold TarWriter.WriteHeader
  rw [← hc]
  by_cases hcl : a.closed = true
  · rw [if_pos hcl, if_pos hcl]
    exact ⟨h, rfl⟩
  · rw [if_neg hcl, if_neg hcl]
    generalize (if a.err = none then a.Flush lib else a) = a1 at hs
    generalize (if b.err = none then b.Flush lib else b) = b1 at hs
    obtain ⟨aw, nb, pad, err, cl, ent⟩ := a1
    obtain ⟨bw, nb2, pad2, err2, cl2, ent2⟩ := b1
    obtain ⟨g1, g2, g3, g4, g5, g6⟩ := hs
    simp only at g1 g2 g3 g4 g5 g6
    subst g1 g2 g3 g4 g5
    cases err with
    | some e => exact ⟨⟨rfl, rfl, rfl, rfl, rfl, g6⟩, rfl⟩
    | none =>
      obtain ⟨w1, w2⟩ := Out_Write_sim lib.gz g6 (lib.encodeHeader hdr)
      have w3 : (aw.Write lib.gz (lib.encodeHeader hdr)).2.2
          = (bw.Write lib.gz (lib.encodeHeader hdr)).2.2 := congrArg (fun x => x.2) w2
      refine ⟨⟨rfl, rfl, w3, rfl, ?_, w1⟩, w3⟩
      show (if (aw.Write lib.gz (lib.encodeHeader hdr)).2.2 = none then _ else _)
        = (if (bw.Write lib.gz (lib.encodeHeader hdr)).2.2 = none then _ else _)
      rw [← w3]

theorem Write_sim (lib : Lib) {a b : TarWriter} (h : TarSim lib.gz a b) (p : List Byte) :
    TarSim lib.gz (a.Write lib p).1 (b.Write lib p).1 ∧
      (a.Write lib p).2 = (b.Write lib p).2 := by
  obtain ⟨aw, nb, pad, err, cl, ent⟩ := a
  obtain ⟨bw, nb2, pad2, err2, cl2, ent2⟩ := b
  obtain ⟨h1, h2, h3, h4, h5, h6⟩ := h
  simp only at h1 h2 h3 h4 h5 h6
  subst h1 h2 h3 h4 h5
  cases cl with
  | true => exact ⟨⟨rfl, rfl, rfl, rfl, rfl, h6⟩, rfl⟩
  | false =>
    obtain ⟨w1, w2⟩ := Out_Write_sim lib.gz h6
      (if decide (nb < p.length) = true then List.take nb p else p)
    have e1 : ∀ (w : Out), TarWriter.Write lib
        { w := w, nb := nb, pad := pad, err := err, closed := false, entries := ent } p
        = if (w.Write lib.gz (if decide (nb < p.length) = true then List.take nb p else p)).2.2
              = none ∧ decide (nb < p.length) = true then
            ({ w := (w.Write lib.gz
                  (if decide (nb < p.length) = true then List.take nb p else p)).1
               nb := nb - (w.Write lib.gz
                  (if decide (nb < p.length) = true then List.take nb p else p)).2.1
               pad := pad
               err := err
               closed := false
               entries := appendBody ent
                ((if decide (nb < p.length) = true then List.take nb p else p).take
                  (w.Write lib.gz
                    (if decide (nb < p.length) = true then List.take nb p else p)).2.1) },
              (w.Write lib.gz
                (if decide (nb < p.length) = true then List.take nb p else p)).2.1,
              some ErrWriteTooLong)
          else
            ({ w := (w.Write lib.gz
                  (if decide (nb < p.length) = true then List.take nb p else p)).1
               nb := nb - (w.Write lib.gz
                  (if decide (nb < p.length) = true then List.take nb p else p)).2.1
               pad := pad
               err := (w.Write lib.gz
                  (if decide (nb < p.length) = true then List.take nb p else p)).2.2
               closed := false
               entries := appendBody ent
                ((if decide (nb < p.length) = true then List.take nb p else p).take
                  (w.Write lib.gz
                    (if decide (nb < p.length) = true then List.take nb p else p)).2.1) },
              (w.Write lib.gz
                (if decide (nb < p.length) = true then List.take nb p else p)).2.1,
              (w.Write lib.gz
                (if decide (nb < p.length) = true then List.take nb p else p)).2.2) := by
      intro w
      rfl
    rw [e1 aw, e1 bw]
    generalize (if decide (nb < p.length) = true then List.take nb p else p) = P at w1 w2 ⊢
    rw [← w2]
    by_cases hcond : (aw.Write lib.gz P).2.2 = none ∧ decide (nb < p.length) = true
    · rw [if_pos hcond, if_pos hcond]
      exact ⟨⟨rfl, rfl, rfl, rfl, rfl, w1⟩, rfl⟩
    · rw [if_neg hcond, if_neg hcond]
      exact ⟨⟨rfl, rfl, rfl, rfl, rfl, w1⟩, rfl⟩

theorem copyChunks_sim (lib : Lib) (cs : List (List Byte)) :
    ∀ {a b : TarWriter}, TarSim lib.gz a b →
      TarSim lib.gz (copyChunks lib a cs).1 (copyChunks lib b cs).1 ∧
        (copyChunks lib a cs).2 = (copyChunks lib b cs).2 := by
  induction cs with
  | nil =>
    intro a b h
    exact ⟨h, rfl⟩
  | cons c cs ih =>
    intro a b h
    unfold copyChunks
    by_cases h0 : c.length = 0
    · simp only [h0, if_true]
      exact ih h
    · simp only [h0, if_false]
      obtain ⟨w1, w2⟩ := Write_sim lib h c
      rw [← w2]
      cases he : (a.Write lib c).2.2 with
      | some ew =>
        simp only
        exact ⟨w1, trivial⟩
      | none =>
        simp only
        split
        · exact ⟨w1, rfl⟩
        · exact ih w1

theorem serveRecord_sim (lib : Lib) {a b : TarWriter} (h : TarSim lib.gz a b) (t : Time)
    (fi : fileInfo) :
    TarSim lib.gz (serveRecord lib t a fi).1 (serveRecord lib t b fi).1 ∧
      (serveRecord lib t a fi).2 = (serveRecord lib t b fi).2 := by
  obtain ⟨w1, _⟩ := WriteHeader_sim lib h (headerOf t fi)
  obtain ⟨c1, c2⟩ := copyChunks_sim lib fi.Body.chunks w1
  unfold serveRecord ioCopy
  simp only
  rw [← c2]
  cases he : (copyChunks lib (a.WriteHeader lib (headerOf t fi)).1 fi.Body.chunks).2 with
  | some e =>
    simp only
    exact ⟨c1, trivial⟩
  | none =>
    simp only
    cases hr : fi.Body.readErr with
    | some e =>
      simp only
      exact ⟨c1, trivial⟩
    | none =>
      simp only
      exact ⟨c1, trivial⟩

theorem serveAll_sim (lib : Lib) (t : Time) (records : List fileInfo) :
    ∀ {a b : TarWriter}, TarSim lib.gz a b →
      TarSim lib.gz (serveAll lib t a records).1 (serveAll lib t b records).1 ∧
        (serveAll lib t a records).2 = (serveAll lib t b records).2 := by
  induction records with
  | nil =>
    intro a b h
    exact ⟨h, rfl⟩
  | cons fi rest ih =>
    intro a b h
    obtain ⟨s1, s2⟩ := serveRecord_sim lib h t fi
    unfold serveAll
    rw [← s2]
    cases he : (serveRecord lib t a fi).2 with
    | some msg =>
      simp only
      exact ⟨s1, trivial⟩
    | none =>
      simp only
      exact ih s1

theorem Close_sim (lib : Lib) {a b : TarWriter} (h : TarSim lib.gz a b) :
    TarSim lib.gz (a.Close lib).1 (b.Close lib).1 ∧ (a.Close lib).2 = (b.Close lib).2 := by
  have hf := Flush_sim lib h
  have h3 : a.err = b.err := h.2.2.1
  have h4 : a.closed = b.closed := h.2.2.2.1
  unfold TarWriter.Close
  rw [← h3, ← h4]
  by_cases hc : a.err ≠ none ∨ a.closed = true
  · rw [if_pos hc, if_pos hc]
    exact ⟨h, rfl⟩
  · rw [if_neg hc, if_neg hc]
    generalize a.Flush lib = a1 at hf
    generalize b.Flush lib = b1 at hf
    obtain ⟨aw, nb, pad, err, cl, ent⟩ := a1
    obtain ⟨bw, nb2, pad2, err2, cl2, ent2⟩ := b1
    obtain ⟨g1, g2, g3, g4, g5, g6⟩ := hf
    simp only at g1 g2 g3 g4 g5 g6
    subst g1 g2 g3 g4 g5
    simp only
    cases err with
    | some e =>
      simp only
      exact ⟨⟨rfl, rfl, rfl, rfl, rfl, g6⟩, trivial⟩
    | none =>
      simp only
      obtain ⟨w1, w2⟩ := Out_Write_sim lib.gz g6 (zeroBlock blockSize)
      have w3 : (aw.Write lib.gz (zeroBlock blockSize)).2.2
          = (bw.Write lib.gz (zeroBlock blockSize)).2.2 := congrArg (fun x => x.2) w2
      rw [← w3]
      cases hw : (aw.Write lib.gz (zeroBlock blockSize)).2.2 with
      | some e =>
        simp only
        exact ⟨⟨rfl, rfl, rfl, rfl, rfl, w1⟩, trivial⟩
      | none =>
        simp only
        obtain ⟨v1, v2⟩ := Out_Write_sim lib.gz w1 (zeroBlock blockSize)
        have v3 : ((aw.Write lib.gz (zeroBlock blockSize)).1.Write lib.gz
              (zeroBlock blockSize)).2.2
            = ((bw.Write lib.gz (zeroBlock blockSize)).1.Write lib.gz
              (zeroBlock blockSize)).2.2 := congrArg (fun x => x.2) v2
        rw [← v3]
        exact ⟨⟨rfl, rfl, rfl, rfl, rfl, v1⟩, rfl⟩

theorem tarSim_new (gz : Gzip) (w : Sink) (h0 : w.data = []) (h1 : w.limit = none)
    (h2 : w.closed = false) :
    TarSim gz (TarWriter.new (Out.new gz w false)) (TarWriter.new (Out.new gz w true)) := by
  refine ⟨rfl, rfl, rfl, rfl, rfl, rfl, ⟨h1, h2⟩, ⟨h1, h2⟩, gz.init, [], rfl, ?_, ?_⟩
  · exact h0
  · intro more
    show w.data ++ _ = _
    rw [h0]
    rfl

/-- At the end of `tarBucket` the compressed sink holds a closed stream that decompresses
to the bytes of the uncompressed sink; neither sink has been closed. -/
theorem finish_sim (lib : Lib) {a b : TarWriter} (h : TarSim lib.gz a b)
    (hgz : lib.gz.Lawful) :
    (finish lib a).2 = (finish lib b).2 ∧
    (finish lib a).1.entries = (finish lib b).1.entries ∧
    lib.gz.gunzip (finish lib b).1.w.w.data = some (finish lib a).1.w.w.data ∧
    (finish lib b).1.w.w.closed = false ∧ (finish lib a).1.w.w.closed = false := by
  obtain ⟨c1, c2⟩ := Close_sim lib h
  obtain ⟨_, _, _, _, c7, c8, c9, c10, z, chunks, c11, c12, c13⟩ := c1
  unfold finish
  refine ⟨c2, c7, ?_, ?_, ?_⟩
  · simp only [Out.CloseGz, c8, c11, Sink_Write_good c10.1 c10.2]
    have h1 := c13 []
    simp only [Gzip.emit, List.append_nil] at h1
    rw [h1, hgz chunks, c12]
  · simp only [Out.CloseGz, c11, Sink_Write_good c10.1 c10.2]
    exact c10.2
  · simp only [Out.CloseGz, c8]
    exact c9.2

/-- With the same records and timestamp the serializer ends the same way with and without
compression, and when it returns the compressed output decompresses to the
uncompressed one. -/
theorem serialize_sim (lib : Lib) (t : Time) (w : Sink) (records : List fileInfo)
    (hgz : lib.gz.Lawful) (h0 : w.data = []) (h1 : w.limit = none) (h2 : w.closed = false) :
    (serialize lib t (TarWriter.new (Out.new lib.gz w true)) records).2
      = (serialize lib t (TarWriter.new (Out.new lib.gz w false)) records).2 ∧
    (serialize lib t (TarWriter.new (Out.new lib.gz w true)) records).1.entries
      = (serialize lib t (TarWriter.new (Out.new lib.gz w false)) records).1.entries ∧
    (∀ e, (serialize lib t (TarWriter.new (Out.new lib.gz w true)) records).2 = .returned e →
      lib.gz.gunzip
          (serialize lib t (TarWriter.new (Out.new lib.gz w true)) records).1.w.w.data
        = some (serialize lib t (TarWriter.new (Out.new lib.gz w false)) records).1.w.w.data ∧
      (serialize lib t (TarWriter.new (Out.new lib.gz w true)) records).1.w.w.closed
        = false) := by
  obtain ⟨s1, s2⟩ := serveAll_sim lib t records (tarSim_new lib.gz w h0 h1 h2)
  obtain ⟨f1, f2, f3, f4, _⟩ := finish_sim lib s1 hgz
  unfold serialize
  rw [← s2]
  cases he : (serveAll lib t (TarWriter.new (Out.new lib.gz w false)) records).2 with
  | some msg =>
    simp only
    refine ⟨trivial, s1.2.2.2.2.1.symm, ?_⟩
    intro e h
    cases h
  | none =>
    simp only
    refine ⟨by rw [f1], f2.symm, ?_⟩
    intro e _
    exact ⟨f3, f4⟩

theorem serveAll_snoc (lib : Lib) (t : Time) (fi : fileInfo) :
    ∀ (records : List fileInfo) (tw : TarWriter), (serveAll lib t tw records).2 = none →
      serveAll lib t tw (records ++ [fi])
        = ((serveRecord lib t (serveAll lib t tw records).1 fi).1,
            (serveRecord lib t (serveAll lib t tw records).1 fi).2) := by
  intro records
  induction records with
  | nil =>
    intro tw _
    simp only [List.nil_append, serveAll]
    cases he : (serveRecord lib t tw fi).2 <;> simp
  | cons r rest ih =>
    intro tw h
    unfold serveAll at h
    simp only [List.cons_append]
    cases he : (serveRecord lib t tw r).2 with
    | some msg =>
      rw [he] at h
      cases h
    | none =>
      rw [he] at h
      simp only at h
      have h2 := ih _ h
      unfold serveAll
      rw [he]
      simp only
      rw [h2]

theorem serInv_other {env : Env} {tar0 : TarWriter} {s u : State} (hi : SerInv env tar0 s)
    (hrun : s.status = .running) (h1 : u.modstamp = s.modstamp) (h2 : u.handed = s.handed)
    (h3 : u.tarIo = s.tarIo) (h4 : ∀ e, u.status ≠ .returned e) : SerInv env tar0 u := by
  have hnr : ∀ e, s.status ≠ .returned e := by
    intro e h
    rw [hrun] at h
    cases h
  refine ⟨?_, ?_, ?_⟩
  · intro hm
    rw [h1] at hm
    obtain ⟨a1, a2, _⟩ := hi.unstamped hm
    exact ⟨by rw [h2, a1], by rw [h3, a2], h4⟩
  · intro t hm _
    rw [h1] at hm
    obtain ⟨a1, a2⟩ := hi.running t hm hnr
    rw [h2, h3]
    exact ⟨a1, fun _ => a2 hrun⟩
  · intro e he
    exact absurd he (h4 e)

theorem serInv_move {env : Env} {tar0 : TarWriter} {s u : State} (hrun : s.status = .running)
    (hi : SerInv env tar0 s) (hm : Move env s u) : SerInv env tar0 u := by
  have hnr : ∀ e, s.status ≠ .returned e := by
    intro e h
    rw [hrun] at h
    cases h
  cases hm with
  | hand i fi t h1 h2 h3 =>
    obtain ⟨a1, a2⟩ := hi.running t h3 hnr
    have a3 := serveAll_snoc env.lib t fi s.handed tar0 (a2 hrun)
    rw [← a1] at a3
    refine ⟨?_, ?_, ?_⟩
    · intro h
      rw [h3] at h
      cases h
    · intro t2 ht2 _
      have e1 : t2 = t := by
        have e2 : some t = some t2 := h3.symm.trans ht2
        exact (Option.some.inj e2).symm
      subst e1
      show (serveRecord env.lib t2 s.tarIo fi).1
          = (serveAll env.lib t2 tar0 (s.handed ++ [fi])).1 ∧ _
      rw [a3]
      refine ⟨rfl, ?_⟩
      intro hst
      show (serveRecord env.lib t2 s.tarIo fi).2 = none
      cases he : (serveRecord env.lib t2 s.tarIo fi).2 with
      | none => rfl
      | some msg =>
        simp only [he] at hst
        cases hst
    · intro e he
      exfalso
      cases he2 : (serveRecord env.lib t s.tarIo fi).2 with
      | none =>
        simp only [he2] at he
        cases he
      | some msg =>
        simp only [he2] at he
        cases he
  | capture h1 =>
    obtain ⟨a1, a2, a3⟩ := hi.unstamped h1
    refine ⟨?_, ?_, ?_⟩
    · intro h
      cases h
    · intro t _ _
      show s.tarIo = (serveAll env.lib t tar0 s.handed).1 ∧ _
      rw [a1, a2]
      exact ⟨rfl, fun _ => rfl⟩
    · intro e he
      exact absurd he (a3 e)
  | finished t h1 h2 =>
    obtain ⟨a1, a2⟩ := hi.running t h1 hnr
    refine ⟨?_, ?_, ?_⟩
    · intro h
      rw [h1] at h
      cases h
    · intro t2 _ hn
      exact absurd rfl (hn _)
    · intro e _
      refine ⟨t, h1, ?_⟩
      show ((finish env.lib s.tarIo).1, Status.returned (finish env.lib s.tarIo).2) = _
      unfold serialize
      rw [a2 hrun, ← a1]
  | listErr next e h1 h2 =>
    exact serInv_other hi hrun rfl rfl rfl (by intro e h; cases h)
  | listOk next list h1 h2 => exact serInv_other hi hrun rfl rfl rfl hnr
  | pageShort next len h1 h2 => exact serInv_other hi hrun rfl rfl rfl hnr
  | pageFull next len h1 h2 => exact serInv_other hi hrun rfl rfl rfl hnr
  | skip next i rest len h1 h2 => exact serInv_other hi hrun rfl rfl rfl hnr
  | sendPanic next i rest len h1 h2 h3 =>
    exact serInv_other hi hrun rfl rfl rfl (by intro e h; cases h)
  | send next i rest len h1 h2 h3 h4 => exact serInv_other hi hrun rfl rfl rfl hnr
  | recv i key q h1 h2 => exact serInv_other hi hrun rfl rfl rfl hnr
  | exit i h1 h2 h3 => exact serInv_other hi hrun rfl rfl rfl hnr
  | fetchEOF i key h1 h2 => exact serInv_other hi hrun rfl rfl rfl hnr
  | fetchFatal i key e h1 h2 h3 =>
    exact serInv_other hi hrun rfl rfl rfl (by intro e h; cases h)
  | fetchNil i key h1 h2 h3 =>
    exact serInv_other hi hrun rfl rfl rfl (by intro e h; cases h)
  | fetchOk i key fi h1 h2 h3 => exact serInv_other hi hrun rfl rfl rfl hnr
  | requeuePanic i key resp h1 h2 =>
    exact serInv_other hi hrun rfl rfl rfl (by intro e h; cases h)
  | requeueNil i key resp h1 h2 h3 h4 =>
    exact serInv_other hi hrun rfl rfl rfl (by intro e h; cases h)
  | requeueOk i key resp fi h1 h2 h3 h4 => exact serInv_other hi hrun rfl rfl rfl hnr
  | handPanic i fi h1 h2 =>
    exact serInv_other hi hrun rfl rfl rfl (by intro e h; cases h)
  | closeDone h1 h2 => exact serInv_other hi hrun rfl rfl rfl hnr

theorem serInv_step {env : Env} {tar0 : TarWriter} {s t : State} {a : Actor}
    (hi : SerInv env tar0 s) (h : step env s a = some t) : SerInv env tar0 t := by
  obtain ⟨hrun, u, hm, rfl⟩ := step_move h
  obtain ⟨a1, a2, a3⟩ := serInv_move hrun hi hm
  exact ⟨a1, a2, a3⟩

theorem serInv_reachable {env : Env} {w : Sink} {compress : Bool} {t0 : Time} {s : State}
    (h : Reachable env (tarBucket env w compress t0) s) :
    SerInv env (TarWriter.new (Out.new env.lib.gz w compress)) s := by
  induction h with
  | start =>
    refine ⟨?_, ?_, ?_⟩
    · intro _
      exact ⟨rfl, rfl, by intro e h; cases h⟩
    · intro t ht
      cases ht
    · intro e he
      cases he
  | next a _ hs ih => exact serInv_step ih hs

theorem Flush_closed (lib : Lib) (tw : TarWriter) : (tw.Flush lib).closed = tw.closed := by
  unfold TarWriter.Flush
  split
  · rfl
  · split <;> rfl

theorem WriteHeader_closed (lib : Lib) (tw : TarWriter) (hdr : Header) :
    (tw.WriteHeader lib hdr).1.closed = tw.closed := by
  unfold TarWriter.WriteHeader
  split
  · rfl
  · simp only
    have h1 : (if tw.err = none then tw.Flush lib else tw).closed = tw.closed := by
      split
      · exact Flush_closed lib tw
      · rfl
    split
    · exact h1
    · exact h1

theorem Write_closed (lib : Lib) (tw : TarWriter) (b : List Byte) :
    (tw.Write lib b).1.closed = tw.closed := by
  unfold TarWriter.Write
  split
  · rfl
  · simp only
    split <;> split <;> rfl

theorem copyChunks_closed (lib : Lib) (cs : List (List Byte)) :
    ∀ tw : TarWriter, (copyChunks lib tw cs).1.closed = tw.closed := by
  induction cs with
  | nil =>
    intro tw
    rfl
  | cons c cs ih =>
    intro tw
    unfold copyChunks
    split
    · exact ih tw
    · simp only
      split
      · exact Write_closed lib tw c
      · split
        · exact Write_closed lib tw c
        · rw [ih, Write_closed]

theorem serveRecord_closed (lib : Lib) (t : Time) (tw : TarWriter) (fi : fileInfo) :
    (serveRecord lib t tw fi).1.closed = tw.closed := by
  have h1 : (serveRecord lib t tw fi).1.closed
      = (tw.WriteHeader lib (headerOf t fi)).1.closed := by
    unfold serveRecord ioCopy
    simp only
    split <;> split <;> exact copyChunks_closed lib _ _
  rw [h1, WriteHeader_closed]

theorem serveAll_closed (lib : Lib) (t : Time) (records : List fileInfo) :
    ∀ tw : TarWriter, (serveAll lib t tw records).1.closed = tw.closed := by
  induction records with
  | nil =>
    intro tw
    rfl
  | cons fi rest ih =>
    intro tw
    unfold serveAll
    split
    · exact serveRecord_closed lib t tw fi
    · rw [ih, serveRecord_closed]

theorem Out_Write_raw (gz : Gzip) {o : Out} (h : o.Good) (hraw : o.gzw = none)
    (p : List Byte) :
    (o.Write gz p).1.w.data = o.w.data ++ p ∧ (o.Write gz p).1.gzw = none := by
  simp [Out.Write, hraw, Sink_Write_good h.1 h.2]

/-- When `tarIo.Close()` succeeds on a writer not yet closed, straight over a sink that
accepts every write, the sink ends with the archive trailer: two zero blocks. -/
theorem Close_trailer (lib : Lib) (tw : TarWriter) (hg : tw.w.Good) (hraw : tw.w.gzw = none)
    (hc : tw.closed = false) (h : (tw.Close lib).2 = none) :
    ∃ pre, (tw.Close lib).1.w.w.data = pre ++ zeroBlock blockSize ++ zeroBlock blockSize := by
  have hf : (tw.Flush lib).w.Good ∧ (tw.Flush lib).w.gzw = none := by
    unfold TarWriter.Flush
    split
    · exact ⟨hg, hraw⟩
    · split
      · exact ⟨(Out_Write_good lib.gz hg _).2.2, (Out_Write_raw lib.gz hg hraw _).2⟩
      · exact ⟨hg, hraw⟩
  obtain ⟨a1, _, a3⟩ := Out_Write_good lib.gz hf.1 (zeroBlock blockSize)
  obtain ⟨a4, a5⟩ := Out_Write_raw lib.gz hf.1 hf.2 (zeroBlock blockSize)
  obtain ⟨b4, _⟩ := Out_Write_raw lib.gz a3 a5 (zeroBlock blockSize)
  unfold TarWriter.Close at h ⊢
  by_cases he : tw.err ≠ none ∨ tw.closed = true
  · rw [if_pos he] at h
    rcases he with he | he
    · exact absurd h he
    · rw [hc] at he
      cases he
  · rw [if_neg he] at h ⊢
    simp only at h ⊢
    cases hfe : (tw.Flush lib).err with
    | some e =>
      rw [hfe] at h
      cases h
    | none =>
      simp only [a1]
      exact ⟨(tw.Flush lib).w.w.data, by rw [b4, a4]⟩

theorem finish_trailer (lib : Lib) {a b : TarWriter} (h : TarSim lib.gz a b)
    (hc : a.closed = false) (hok : (finish lib a).2 = none) :
    ∃ pre, (finish lib a).1.w.w.data = pre ++ zeroBlock blockSize ++ zeroBlock blockSize := by
  obtain ⟨c1, _⟩ := Close_sim lib h
  have hraw : (a.Close lib).1.w.gzw = none := c1.2.2.2.2.2.1
  obtain ⟨pre, hpre⟩ := Close_trailer lib a h.2.2.2.2.2.2.1 h.2.2.2.2.2.1 hc hok
  refine ⟨pre, ?_⟩
  unfold finish
  simp only [Out.CloseGz, hraw]
  exact hpre

theorem toyGz_emit (chunks : List (List Byte)) :
    ∀ z, toyGz.emit z chunks = chunks.flatten ++ [255] := by
  induction chunks with
  | nil =>
    intro z
    rfl
  | cons c cs ih =>
    intro z
    simp only [Gzip.emit, List.flatten_cons, List.append_assoc]
    rw [ih]
    rfl

theorem toyGz_lawful : toyGz.Lawful := by
  intro chunks
  rw [toyGz_emit]
  simp [toyGz]

/-- After `workChan <- key` in the "EOF" case the worker does not go back to the head of
its loop: whatever the failed call returned, its move ends in a panic or leaves it
handing over a record for the same key, built from the failed response. -/
theorem eof_branch_falls_through (env : Env) (s t : State) (i : Nat) (key : String)
    (resp : Option GetObjectOutput) (hw : s.workers[i]? = some (.requeue key resp))
    (h : step env s (.worker i) = some t) :
    (∃ msg, t.status = .panicked msg) ∨
      ∃ fi, t.workers[i]? = some (.handing fi) ∧ fi.Name = key ∧
        mkFileInfo key resp = some fi := by
  obtain ⟨hrun, u, hm, rfl⟩ := step_move h
  have hlt : i < s.workers.length := by
    by_contra hc
    rw [List.getElem?_eq_none (by omega)] at hw
    cases hw
  unfold step at h
  rw [if_neg (by simp [hrun])] at h
  simp only [fetchWorker, hw] at h
  cases hc : chanSend s.workChan s.workClosed key with
  | panic =>
    rw [hc] at h
    simp only [Option.map_some', Option.some.injEq] at h
    left
    exact ⟨"send on closed channel", by rw [← h]⟩
  | blocked =>
    rw [hc] at h
    simp at h
  | sent q =>
    rw [hc] at h
    simp only [Option.map_some', Option.some.injEq] at h
    cases hf : mkFileInfo key resp with
    | none =>
      left
      refine ⟨"invalid memory address or nil pointer dereference", ?_⟩
      rw [← h]
      simp [buildInfo, hf]
    | some fi =>
      right
      refine ⟨fi, ?_, mkFileInfo_name hf, rfl⟩
      rw [← h]
      simp [buildInfo, hf, hlt]

/-- The send of the retry branch: a worker standing before `workChan <- key`, on an open
queue with room, moves, and its move puts the key at the back of the key queue. -/
theorem requeue_sends (env : Env) (s : State) (i : Nat) (key : String)
    (resp : Option GetObjectOutput) (hrun : s.status = .running)
    (hw : s.workers[i]? = some (.requeue key resp)) (hc : s.workClosed = false)
    (hq : s.workChan.length < workChanCap) :
    ∃ t, step env s (.worker i) = some t ∧ t.workChan = s.workChan ++ [key] := by
  have hstep : step env s (.worker i)
      = some { (buildInfo { s with workChan := s.workChan ++ [key] } i key resp) with
          now := (buildInfo { s with workChan := s.workChan ++ [key] } i key resp).now + 1 } := by
    simp [step, hrun, fetchWorker, hw, hc, chanSend_open hq]
  refine ⟨_, hstep, ?_⟩
  show (buildInfo { s with workChan := s.workChan ++ [key] } i key resp).workChan = _
  unfold buildInfo
  split <;> rfl

/-- The switch on a fetch error (lines 80-89): when the `GetObject` call of a worker fails
with message `m`, the worker moves, and it takes the retry branch (the process still
runs and the worker stands before `workChan <- key` with the same key) if and only if
`m` is exactly "EOF"; any other message ends the process with `log.Fatalln`, nothing is
handed to the serializer and no goroutine moves any more. -/
theorem fetch_error_switch (env : Env) (s : State) (i : Nat) (key m : String)
    (hrun : s.status = .running) (hw : s.workers[i]? = some (.fetching key))
    (herr : (env.s3.GetObject s.nGet { Key := key, Bucket := env.bucket }).err = some m) :
    ∃ s2, step env s (.worker i) = some s2 ∧
      ((s2.status = .running ∧ ∃ resp, s2.workers[i]? = some (.requeue key resp))
        ↔ m = "EOF") ∧
      (m ≠ "EOF" →
        s2.status = .fatal ("Found error %s " ++ m) ∧ s2.handed = s.handed ∧
        s2.tarIo = s.tarIo ∧ (∀ a, step env s2 a = none) ∧
        ∀ s3, Reachable env s2 s3 → s3 = s2) := by
  have hlt : i < s.workers.length := by
    by_contra hc
    rw [List.getElem?_eq_none (by omega)] at hw
    cases hw
  by_cases hm : m = "EOF"
  · have hstep : step env s (.worker i)
        = some { s with
            nGet := s.nGet + 1
            workers := s.workers.set i
              (.requeue key (env.s3.GetObject s.nGet { Key := key, Bucket := env.bucket }).resp)
            now := s.now + 1 } := by
      simp [step, hrun, fetchWorker, hw, herr, hm]
    refine ⟨_, hstep, ?_, ?_⟩
    · constructor
      · intro _
        exact hm
      · intro _
        refine ⟨hrun,
          (env.s3.GetObject s.nGet { Key := key, Bucket := env.bucket }).resp, ?_⟩
        simp [hlt]
    · intro hne
      exact absurd hm hne
  · have hstep : step env s (.worker i)
        = some { s with
            nGet := s.nGet + 1
            status := .fatal ("Found error %s " ++ m)
            now := s.now + 1 } := by
      simp [step, hrun, fetchWorker, hw, herr, hm]
    have hend : ({ s with
        nGet := s.nGet + 1
        status := .fatal ("Found error %s " ++ m)
        now := s.now + 1 } : State).status ≠ .running := by
      simp
    refine ⟨_, hstep, ?_, ?_⟩
    · constructor
      · intro h
        exact absurd h.1 hend
      · intro h
        exact absurd h hm
    · intro _
      exact ⟨rfl, rfl, rfl, step_none_of_ended hend, fun s3 h => reachable_of_ended hend h⟩

/-! ## The claims -/

set_option maxRecDepth 8192

/-- C1. When the store lists the bucket as `pages` (each page but the last with at
least 500 entries, the last with fewer), every fetch succeeds with a body of exactly
the declared length and the sink accepts every write, then in every state of every
run of `tarBucket`: the run has not aborted; once it has returned, the archive
entries are, as a multiset of (name, content) pairs, exactly the (key, content) pairs
of the listed keys that do not end in "/", one entry for each such key; while it has
not returned some goroutine can move; every move decreases `workLeft`, so every run
ends; and the run can be completed from this state. -/
theorem tarBucket_archives_listed_objects (env : Env) (pages : List ListObjectsOutput)
    (content : String → List Byte) (w : Sink) (compress : Bool) (t0 : Time)
    (hlist : Listing env 0 (some "") pages) (hget : Fetches env content)
    (hw : w.limit = none ∧ w.closed = false) (s : State)
    (hs : Reachable env (tarBucket env w compress t0) s) :
    (s.status = .running ∨ s.status = .returned none) ∧
    (∀ err, s.status = .returned err →
      Multiset.ofList (entryPairs s.tarIo) = Multiset.ofList (expectedPairs pages content) ∧
      s.tarIo.entries.length = (keysOf (objectsOf pages)).length) ∧
    (s.status = .running → ∃ a t, step env s a = some t) ∧
    (∀ a t, step env s a = some t → workLeft pages t < workLeft pages s) ∧
    (∃ t, Reachable env s t ∧ t.status = .returned none) := by
  have h0 : Good env pages content (tarBucket env w compress t0) :=
    good_tarBucket hlist w hw.1 hw.2 compress t0
  have hg : Good env pages content s := good_reachable hget h0 hs
  refine ⟨?_, ?_, ?_, ?_, ?_⟩
  · rcases hg.status with h | h
    · exact Or.inl h
    · exact Or.inr h.1
  · intro err herr
    obtain ⟨_, hp⟩ := good_final hg err herr
    refine ⟨Multiset.coe_eq_coe.mpr hp, ?_⟩
    have h1 := hp.length_eq
    simpa [entryPairs, expectedPairs] using h1
  · intro hrun
    exact good_progress hget hg hrun
  · intro a t ht
    exact workLeft_step hget hg ht
  · exact good_completes hget (workLeft pages s) s (Nat.le_refl _) hg

/-- C1, the scenario of the specification: keys "a.txt" ("hello"), "dir/" and "b.bin"
(empty) give exactly the entries "a.txt" with the 5 bytes of "hello" and "b.bin" with
no bytes. -/
theorem tarBucket_archives_listed_objects_witness :
    (run scenarioEnv (tarBucket scenarioEnv openSink false 0) scenarioSched).status
      = .returned none ∧
    Multiset.ofList
        (entryPairs (run scenarioEnv (tarBucket scenarioEnv openSink false 0) scenarioSched).tarIo)
      = Multiset.ofList [("a.txt", [104, 101, 108, 108, 111]), ("b.bin", [])] ∧
    (run scenarioEnv (tarBucket scenarioEnv openSink false 0) scenarioSched).tarIo.entries.length
      = 2 := by
  have hst : (run scenarioEnv (tarBucket scenarioEnv openSink false 0) scenarioSched).status
      = .returned none := by decide
  have h := tarBucket_archives_listed_objects scenarioEnv [scenarioPage] scenarioContent
    openSink false 0 ⟨rfl, Or.inl ⟨rfl, by decide⟩⟩
    (fun _ key => ⟨{ chunks := [scenarioContent key], readErr := none }, rfl,
      by simp [ReadCloser.content], rfl⟩)
    ⟨rfl, rfl⟩ _ (reachable_run scenarioEnv scenarioSched _ _ Reachable.start)
  obtain ⟨h1, h2⟩ := h.2.1 none hst
  refine ⟨hst, ?_, ?_⟩
  · rw [h1]
    rfl
  · rw [h2]
    rfl

/-- C2 does not hold of the code: after `workChan <- key` the worker does not go back to the
head of its loop but goes on to build a record from the failed response. On the
bucket with the single key "k" whose first fetch fails with "EOF" and whose second
fetch succeeds: when the failed call returned no response, or a response without
content length, the process panics on the nil dereference; when it returned a
response with content length 0, the run returns without error and the archive holds
two entries named "k", the first built from the failed attempt. -/
theorem transient_failure_panics_or_duplicates :
    (run (flakyEnv none) (tarBucket (flakyEnv none) openSink false 0)
        [.lister, .lister, .main, .worker 0, .worker 0, .worker 0]).status
      = .panicked "invalid memory address or nil pointer dereference" ∧
    (run (flakyEnv (some { ContentLength := none, Body := { chunks := [], readErr := none } }))
        (tarBucket
          (flakyEnv (some { ContentLength := none, Body := { chunks := [], readErr := none } }))
          openSink false 0)
        [.lister, .lister, .main, .worker 0, .worker 0, .worker 0]).status
      = .panicked "invalid memory address or nil pointer dereference" ∧
    (run (flakyEnv (some { ContentLength := some 0, Body := { chunks := [], readErr := none } }))
        (tarBucket
          (flakyEnv (some { ContentLength := some 0, Body := { chunks := [], readErr := none } }))
          openSink false 0) retrySched).status = .returned none ∧
    entryPairs
      (run (flakyEnv (some { ContentLength := some 0, Body := { chunks := [], readErr := none } }))
        (tarBucket
          (flakyEnv (some { ContentLength := some 0, Body := { chunks := [], readErr := none } }))
          openSink false 0) retrySched).tarIo
      = [("k", []), ("k", [1, 2, 3])] := by
  decide

/-- C3. For every store and every run of `tarBucket`: the first page request carries
the empty marker and page size 500; request number `i + 1` is issued only after
request `i` was answered by a page of at least 500 entries, and carries that page's
`NextMarker` and page size 500; once a request was answered by a page of fewer than
500 entries it is the last request; and the key queue is closed only after such a
page. Moreover `listBucket`, run on its own against a store that lists `pages` (each
page but the last with at least 500 entries, the last with fewer), issues exactly
one request for each page, in order, each with the marker returned by the page before,
then closes the key queue and stops: the number of requests is the index of the first
short page plus one. -/
theorem listBucket_pages_until_short_page (env : Env) (w : Sink) (compress : Bool)
    (t0 : Time) :
    (∀ s, Reachable env (tarBucket env w compress t0) s →
      (∀ r, s.listReqs[0]? = some r →
        r.Marker = some "" ∧ r.MaxKeys = 500 ∧ r.Bucket = env.bucket) ∧
      (∀ i r, s.listReqs[i + 1]? = some r →
        ∃ r0 p, s.listReqs[i]? = some r0 ∧ env.s3.ListObjects i r0 = .ok p ∧
          500 ≤ p.Contents.length ∧ r.Marker = p.NextMarker ∧ r.MaxKeys = 500 ∧
          r.Bucket = env.bucket) ∧
      (∀ i r p, s.listReqs[i]? = some r → env.s3.ListObjects i r = .ok p →
        p.Contents.length < 500 → s.listReqs.length = i + 1) ∧
      (s.workClosed = true →
        s.lister = .done ∧
        ∃ r p, s.listReqs[s.listReqs.length - 1]? = some r ∧ 0 < s.listReqs.length ∧
          env.s3.ListObjects (s.listReqs.length - 1) r = .ok p ∧
          p.Contents.length < 500)) ∧
    (∀ pages, Listing env 0 (some "") pages →
      ∃ n, ∀ m, n ≤ m →
        (listerRun env m (tarBucket env w compress t0)).lister = .done ∧
        (listerRun env m (tarBucket env w compress t0)).workClosed = true ∧
        (listerRun env m (tarBucket env w compress t0)).listReqs
          = requestsFor env (some "") pages ∧
        (listerRun env m (tarBucket env w compress t0)).listReqs.length = pages.length ∧
        step env (listerRun env m (tarBucket env w compress t0)) .lister = none) := by
  constructor
  · intro s hs
    have hi : PagingInv env s := pagingInv_reachable (pagingInv_tarBucket env w compress t0) hs
    refine ⟨?_, ?_, ?_, ?_⟩
    · intro r hr
      rw [hi.first r hr]
      exact ⟨rfl, rfl, rfl⟩
    · intro i r hr
      obtain ⟨r0, p, h1, h2, h3, h4⟩ := hi.chain i r hr
      refine ⟨r0, p, h1, h2, h3, ?_⟩
      rw [h4]
      exact ⟨rfl, rfl, rfl⟩
    · intro i r p hr hp hlen
      have h1 : i < s.listReqs.length := by
        by_contra hc
        rw [List.getElem?_eq_none (by omega)] at hr
        cases hr
      by_contra hne
      have h2 : i + 1 < s.listReqs.length := by omega
      obtain ⟨r1, h3⟩ : ∃ r1, s.listReqs[i + 1]? = some r1 :=
        ⟨s.listReqs[i + 1], List.getElem?_eq_getElem h2⟩
      obtain ⟨r0, p0, h4, h5, h6, _⟩ := hi.chain i r1 h3
      rw [hr] at h4
      cases h4
      rw [hp] at h5
      cases h5
      have h7 : pageSize = 500 := rfl
      omega
    · intro hc
      obtain ⟨h1, p, ⟨r, h2, h3, h4⟩, h5⟩ := hi.closed hc
      exact ⟨h1, r, p, h2, h3, h4, h5⟩
  · intro pages hl
    obtain ⟨n, hn⟩ := listerRun_lists env pages (some "") (tarBucket env w compress t0)
      hl rfl rfl rfl rfl
    refine ⟨n, ?_⟩
    intro m hm
    obtain ⟨b1, b2, b3, b4⟩ := hn m hm
    have b5 : (listerRun env m (tarBucket env w compress t0)).listReqs
        = requestsFor env (some "") pages := by
      rw [b3]
      rfl
    refine ⟨b1, b2, b5, ?_, b4⟩
    rw [b5, requestsFor_length]

/-- C3 on a bucket of 500 objects: the first page has exactly 500 entries and marker
"m1", the second page is empty. `listBucket` issues exactly two requests, the first
with the empty marker and the second with "m1", both of page size 500, then closes the
key queue. -/
theorem listBucket_pages_until_short_page_witness :
    ∃ n, ∀ m, n ≤ m →
      (listerRun pagedEnv m (tarBucket pagedEnv openSink false 0)).lister = .done ∧
      (listerRun pagedEnv m (tarBucket pagedEnv openSink false 0)).workClosed = true ∧
      (listerRun pagedEnv m (tarBucket pagedEnv openSink false 0)).listReqs
        = [{ MaxKeys := 500, Bucket := "bucket", Marker := some "" },
            { MaxKeys := 500, Bucket := "bucket", Marker := some "m1" }] ∧
      (listerRun pagedEnv m (tarBucket pagedEnv openSink false 0)).listReqs.length = 2 ∧
      step pagedEnv (listerRun pagedEnv m (tarBucket pagedEnv openSink false 0)) .lister
        = none :=
  (listBucket_pages_until_short_page pagedEnv openSink false 0).2 [fullPage, emptyPage]
    ⟨rfl, Or.inr ⟨by simp,
      by
        show 500 ≤ (List.replicate 500 ({ Key := "k" } : Object)).length
        rw [List.length_replicate],
      ⟨rfl, Or.inl ⟨rfl, by simp [emptyPage, pageSize]⟩⟩⟩⟩

/-- C4. In every state of every run of `tarBucket`, whatever the store answers: no key
in the key queue, no key or record held by a worker and no record handed to the
serializer has a name ending in "/"; so the mode selected for every record handed over
is 0644, never the directory mode, and every archive header written has mode 0644 and
a name not ending in "/". -/
theorem no_directory_name_in_pipeline (env : Env) (w : Sink) (compress : Bool) (t0 : Time)
    (s : State) (hs : Reachable env (tarBucket env w compress t0) s) :
    (∀ k ∈ s.workChan, HasSuffix k "/" = false) ∧
    (∀ x ∈ s.workers, ∀ k ∈ x.held, HasSuffix k "/" = false) ∧
    (∀ fi ∈ s.handed, HasSuffix fi.Name "/" = false ∧ fmodeOf fi.Name = 0o644) ∧
    (∀ e ∈ s.tarIo.entries, e.hdr.Mode = 0o644 ∧ HasSuffix e.hdr.Name "/" = false) := by
  have hi : NameInv s := nameInv_reachable (nameInv_tarBucket env w compress t0) hs
  refine ⟨hi.queue, ?_, ?_, ?_⟩
  · intro x hx k hk
    have h1 := hi.held x hx
    cases x with
    | idle => simp [Worker.held] at hk
    | exited => simp [Worker.held] at hk
    | fetching key =>
      simp only [Worker.held, List.mem_singleton] at hk
      rw [hk]
      exact h1
    | requeue key resp =>
      simp only [Worker.held, List.mem_singleton] at hk
      rw [hk]
      exact h1
    | handing fi =>
      simp only [Worker.held, List.mem_singleton] at hk
      rw [hk]
      exact h1
  · intro fi hfi
    exact ⟨hi.handed fi hfi, fmodeOf_file (hi.handed fi hfi)⟩
  · intro e he
    cases hm : s.modstamp with
    | none =>
      rw [(hi.unstamped hm).2] at he
      cases he
    | some t =>
      obtain ⟨fi, h1, h2⟩ := entry_of_headers (hi.headers t hm) e he
      rw [h2]
      exact ⟨fmodeOf_file (hi.handed fi h1), hi.handed fi h1⟩

/-- C4 on the scenario bucket, whose one page holds the pseudo-directory "dir/": after
the complete run every header has mode 0644 and no name ends in "/". -/
theorem no_directory_name_in_pipeline_witness :
    (run scenarioEnv (tarBucket scenarioEnv openSink false 0) scenarioSched).listReqs.length
      = 1 ∧
    ∀ e ∈ (run scenarioEnv (tarBucket scenarioEnv openSink false 0) scenarioSched).tarIo.entries,
      e.hdr.Mode = 0o644 ∧ HasSuffix e.hdr.Name "/" = false :=
  ⟨by decide,
    (no_directory_name_in_pipeline scenarioEnv openSink false 0 _
      (reachable_run scenarioEnv scenarioSched _ _ Reachable.start)).2.2.2⟩

/-- C5 does not hold as stated: for a record that declares 5 bytes and whose body stream holds
2 bytes, the serializer writes a header of Size 5, copies 2 body bytes, and goes on
without an error. -/
theorem short_body_copies_fewer_bytes_than_size :
    (serveRecord toyLib 0 (freshTar openSink) shortRecord).2 = none ∧
    (serveRecord toyLib 0 (freshTar openSink) shortRecord).1.entries.map
      (fun e => (e.hdr.Size, e.body.length)) = [(5, 2)] := by
  decide

/-- C5 as amended. The Size of a record is the content length the store returned at
fetch time. When a record is served by a writer that is error-free and between
entries, over a sink that accepts the writes, the header written has that Size and the
body bytes copied under it are the first Size bytes of the body stream: their number
is the minimum of Size and the length of the stream, so it equals Size exactly when
the stream holds at least Size bytes. With a longer stream the copy fails after Size
bytes and the run is aborted; with a stream of at most Size bytes that ends without
read error the serializer goes on. -/
theorem serveRecord_copies_first_size_bytes (lib : Lib) (t : Time) (tw : TarWriter)
    (fi : fileInfo) (h : tw.Healthy) :
    (∀ key r n, r.ContentLength = some n →
      mkFileInfo key (some r) = some { Name := key, Size := n, Body := r.Body }) ∧
    (serveRecord lib t tw fi).1.entries
      = tw.entries ++ [{ hdr := headerOf t fi, body := fi.Body.content.take fi.Size }] ∧
    (headerOf t fi).Size = fi.Size ∧
    (fi.Body.content.take fi.Size).length = min fi.Size fi.Body.content.length ∧
    ((fi.Body.content.take fi.Size).length = fi.Size ↔ fi.Size ≤ fi.Body.content.length) ∧
    (fi.Size < fi.Body.content.length →
      (serveRecord lib t tw fi).2 = some ("Failed to write tarfile " ++ ErrWriteTooLong)) ∧
    (fi.Body.content.length ≤ fi.Size → fi.Body.readErr = none →
      (serveRecord lib t tw fi).2 = none) := by
  obtain ⟨g1, _, _, _, g5, g6⟩ := serveRecord_good lib h t fi
  refine ⟨?_, g1, rfl, List.length_take _ _, ?_, g6, ?_⟩
  · intro key r n hn
    simp [mkFileInfo, hn]
  · rw [List.length_take]
    omega
  · intro h1 h2
    exact (g5 h1 h2).1

/-- C5 as amended, on the record "a.txt" declaring 5 bytes with body "hello": the 5 bytes
are copied under a header of Size 5. -/
theorem serveRecord_copies_first_size_bytes_witness :
    (serveRecord toyLib 0 (freshTar openSink) helloRecord).1.entries
      = [{ hdr := headerOf 0 helloRecord, body := [104, 101, 108, 108, 111] }] ∧
    (serveRecord toyLib 0 (freshTar openSink) helloRecord).2 = none :=
  ⟨(serveRecord_copies_first_size_bytes toyLib 0 (freshTar openSink) helloRecord
      ⟨rfl, rfl, rfl, ⟨rfl, rfl⟩⟩).2.1,
    (serveRecord_copies_first_size_bytes toyLib 0 (freshTar openSink) helloRecord
      ⟨rfl, rfl, rfl, ⟨rfl, rfl⟩⟩).2.2.2.2.2.2 (by decide) rfl⟩

/-- C6 does not hold of the code: on the bucket with the single key "k" whose first fetch
fails with "EOF" and returns no response, the worker takes the retry branch and its
next move does put "k" back on the key queue, but the run does not continue: having
no `continue`, the same move goes on to `*resp.ContentLength` and the process panics,
with nothing handed to the serializer; no goroutine moves afterwards. -/
theorem transient_fetch_error_requeues_then_panics :
    (run (flakyEnv none) (tarBucket (flakyEnv none) openSink false 0)
        [.lister, .lister, .main, .worker 0, .worker 0]).status = .running ∧
    (run (flakyEnv none) (tarBucket (flakyEnv none) openSink false 0)
        [.lister, .lister, .main, .worker 0, .worker 0]).workers[0]?
      = some (.requeue "k" none) ∧
    (run (flakyEnv none) (tarBucket (flakyEnv none) openSink false 0)
        [.lister, .lister, .main, .worker 0, .worker 0]).workChan = [] ∧
    (run (flakyEnv none) (tarBucket (flakyEnv none) openSink false 0)
        [.lister, .lister, .main, .worker 0, .worker 0]).workClosed = false ∧
    (run (flakyEnv none) (tarBucket (flakyEnv none) openSink false 0)
        [.lister, .lister, .main, .worker 0, .worker 0, .worker 0]).workChan = ["k"] ∧
    (run (flakyEnv none) (tarBucket (flakyEnv none) openSink false 0)
        [.lister, .lister, .main, .worker 0, .worker 0, .worker 0]).status
      = .panicked "invalid memory address or nil pointer dereference" ∧
    (run (flakyEnv none) (tarBucket (flakyEnv none) openSink false 0)
        [.lister, .lister, .main, .worker 0, .worker 0, .worker 0]).handed = [] ∧
    (run (flakyEnv none) (tarBucket (flakyEnv none) openSink false 0)
        [.lister, .lister, .main, .worker 0, .worker 0, .worker 0, .worker 1, .lister, .main,
          .supervisor])
      = run (flakyEnv none) (tarBucket (flakyEnv none) openSink false 0)
        [.lister, .lister, .main, .worker 0, .worker 0, .worker 0] := by
  decide

/-- C7 does not hold as stated: on a bucket without objects and a sink that accepts nothing,
the write of the archive trailer fails and `tarBucket` returns normally, with the write
error as its error value. -/
theorem trailer_failure_returns_normally :
    (run emptyEnv (tarBucket emptyEnv (smallSink 0) false 0) emptySched).status
      = .returned (some "write: no space left on device") := by
  decide

/-- C7 as amended. A failure while copying an entry body is fatal: the move that hands
the record over ends the process with `log.Fatalln`, after which no goroutine moves,
so no later entry is written and `tarBucket` does not return. A failure of
`tarIo.Close()`, which writes the archive trailer, is not fatal: `tarBucket` returns
normally with that error as its error value. -/
theorem copy_failure_fatal_and_trailer_failure_returned (env : Env) (s : State)
    (hrun : s.status = .running) :
    (∀ i fi t e, s.workers[i]? = some (.handing fi) → s.doneClosed = false →
      s.modstamp = some t →
      (ioCopy env.lib (s.tarIo.WriteHeader env.lib (headerOf t fi)).1 fi.Body).2 = some e →
      ∃ s2, step env s (.worker i) = some s2 ∧
        s2.status = .fatal ("Failed to write tarfile " ++ e) ∧
        (∀ a, step env s2 a = none) ∧ (∀ s3, Reachable env s2 s3 → s3 = s2)) ∧
    (∀ t e, s.modstamp = some t → s.doneClosed = true →
      (s.tarIo.Close env.lib).2 = some e →
      ∃ s2, step env s .main = some s2 ∧ s2.status = .returned (some e)) := by
  constructor
  · intro i fi t e hw hd hm he
    have hserve : (serveRecord env.lib t s.tarIo fi).2
        = some ("Failed to write tarfile " ++ e) := by
      unfold serveRecord
      simp only [he]
    have hstep : step env s (.worker i)
        = some { s with
            tarIo := (serveRecord env.lib t s.tarIo fi).1
            handed := s.handed ++ [fi]
            workers := s.workers.set i .idle
            status := .fatal ("Failed to write tarfile " ++ e)
            now := s.now + 1 } := by
      simp [step, hrun, fetchWorker, hw, hd, hm, hserve]
    obtain ⟨s2, h1, h2⟩ : ∃ s2, step env s (.worker i) = some s2 ∧
        s2.status = .fatal ("Failed to write tarfile " ++ e) := ⟨_, hstep, rfl⟩
    have h3 : s2.status ≠ .running := by
      rw [h2]
      simp
    exact ⟨s2, h1, h2, step_none_of_ended h3, fun s3 h => reachable_of_ended h3 h⟩
  · intro t e hm hd he
    have hfin : (finish env.lib s.tarIo).2 = some e := by
      unfold finish
      simp only [he]
    have hstep : step env s .main
        = some { s with
            tarIo := (finish env.lib s.tarIo).1
            status := .returned (some e)
            now := s.now + 1 } := by
      simp [step, hrun, mainLoop, hm, hd, hfin]
    exact ⟨_, hstep, rfl⟩

/-- C7 as amended, on the scenario bucket. With a sink that accepts nothing, handing over
"a.txt" ends the process in the copy; on the bucket without objects, the last move
returns the error of the trailer write. -/
theorem copy_failure_fatal_and_trailer_failure_returned_witness :
    (∃ s2, step scenarioEnv
        (run scenarioEnv (tarBucket scenarioEnv (smallSink 0) false 0)
          (scenarioSched.take 10)) (.worker 0) = some s2 ∧
      s2.status = .fatal ("Failed to write tarfile " ++ "write: no space left on device") ∧
      (∀ a, step scenarioEnv s2 a = none) ∧ (∀ s3, Reachable scenarioEnv s2 s3 → s3 = s2)) ∧
    (∃ s2, step emptyEnv
        (run emptyEnv (tarBucket emptyEnv (smallSink 0) false 0) (emptySched.take 14))
          .main = some s2 ∧
      s2.status = .returned (some "write: no space left on device")) :=
  ⟨(copy_failure_fatal_and_trailer_failure_returned scenarioEnv
      (run scenarioEnv (tarBucket scenarioEnv (smallSink 0) false 0) (scenarioSched.take 10))
      (by decide)).1 0
      { Name := "a.txt", Size := 5, Body := { chunks := [hello], readErr := none } } 5
      "write: no space left on device" (by decide) (by decide) (by decide) (by decide),
    (copy_failure_fatal_and_trailer_failure_returned emptyEnv
      (run emptyEnv (tarBucket emptyEnv (smallSink 0) false 0) (emptySched.take 14))
      (by decide)).2 2 "write: no space left on device" (by decide) (by decide) (by decide)⟩

/-- C8. Take a compressor whose decompressor gives back what was written, an empty
sink that accepts every write, and two runs of `tarBucket` that have returned, one with
`compress = true` and one with `compress = false`, in which the serializer received
the same sequence of records and captured the same timestamp. Then both returned the
same error value; the bytes in the sink of the compressed run are a closed compressed
stream whose decompression is, byte for byte, the bytes in the sink of the
uncompressed run; both archives hold the same entries; at the return neither sink has
been closed: the compressor is closed by `tarBucket` and the sink only afterwards, by
the deferred `w.Close()` of `TarExecute`, which leaves its bytes as they are; and
when no error is returned the uncompressed bytes, hence the decompressed ones, end with
the archive trailer, which therefore went through the compressor before it was
closed. -/
theorem compressed_output_decompresses_to_uncompressed (env : Env) (w : Sink) (t0 t1 : Time)
    (s1 s2 : State) (e1 e2 : Option String) (hgz : env.lib.gz.Lawful)
    (hw : w.data = [] ∧ w.limit = none ∧ w.closed = false)
    (hr1 : Reachable env (tarBucket env w true t0) s1)
    (hr2 : Reachable env (tarBucket env w false t1) s2)
    (hrec : s1.handed = s2.handed) (hstamp : s1.modstamp = s2.modstamp)
    (hs1 : s1.status = .returned e1) (hs2 : s2.status = .returned e2) :
    e1 = e2 ∧
    env.lib.gz.gunzip s1.tarIo.w.w.data = some s2.tarIo.w.w.data ∧
    s1.tarIo.entries = s2.tarIo.entries ∧
    s1.tarIo.w.w.closed = false ∧ s2.tarIo.w.w.closed = false ∧
    TarExecute s1 = some ({ s1.tarIo.w.w with closed := true }, e1) ∧
    (e2 = none →
      ∃ pre, s2.tarIo.w.w.data = pre ++ zeroBlock blockSize ++ zeroBlock blockSize) := by
  obtain ⟨ta, ha1, ha2⟩ := (serInv_reachable hr1).returned e1 hs1
  obtain ⟨tb, hb1, hb2⟩ := (serInv_reachable hr2).returned e2 hs2
  have ht : ta = tb := by
    rw [hstamp, hb1] at ha1
    exact (Option.some.inj ha1).symm
  subst ht
  rw [hrec] at ha2
  obtain ⟨g1, g2, g3⟩ := serialize_sim env.lib ta w s2.handed hgz hw.1 hw.2.1 hw.2.2
  have ha3 : s1.tarIo = (serialize env.lib ta
      (TarWriter.new (Out.new env.lib.gz w true)) s2.handed).1 := congrArg Prod.fst ha2
  have ha4 : s1.status = (serialize env.lib ta
      (TarWriter.new (Out.new env.lib.gz w true)) s2.handed).2 := congrArg Prod.snd ha2
  have hb3 : s2.tarIo = (serialize env.lib ta
      (TarWriter.new (Out.new env.lib.gz w false)) s2.handed).1 := congrArg Prod.fst hb2
  have hb4 : s2.status = (serialize env.lib ta
      (TarWriter.new (Out.new env.lib.gz w false)) s2.handed).2 := congrArg Prod.snd hb2
  have hst : s1.status = s2.status := by rw [ha4, hb4, g1]
  have he : e1 = e2 := by
    rw [hs1, hs2] at hst
    cases hst
    rfl
  obtain ⟨g4, g5⟩ := g3 e1 (by rw [← ha4, hs1])
  obtain ⟨s1sim, s2eq⟩ := serveAll_sim env.lib ta s2.handed
    (tarSim_new env.lib.gz w hw.1 hw.2.1 hw.2.2)
  have hfin :
      (serveAll env.lib ta (TarWriter.new (Out.new env.lib.gz w false)) s2.handed).2 = none ∧
      s2.tarIo = (finish env.lib
        (serveAll env.lib ta (TarWriter.new (Out.new env.lib.gz w false)) s2.handed).1).1 ∧
      e2 = (finish env.lib
        (serveAll env.lib ta (TarWriter.new (Out.new env.lib.gz w false)) s2.handed).1).2 := by
    unfold serialize at hb3 hb4
    cases hsa : (serveAll env.lib ta (TarWriter.new (Out.new env.lib.gz w false))
        s2.handed).2 with
    | some msg =>
      rw [hsa] at hb4
      rw [hs2] at hb4
      cases hb4
    | none =>
      rw [hsa] at hb3 hb4
      rw [hs2] at hb4
      refine ⟨rfl, hb3, ?_⟩
      cases hb4
      rfl
  obtain ⟨f1, f2, f3⟩ := hfin
  obtain ⟨_, _, _, _, f8⟩ := finish_sim env.lib s1sim hgz
  refine ⟨he, ?_, ?_, ?_, ?_, ?_, ?_⟩
  · rw [ha3, hb3]
    exact g4
  · rw [ha3, hb3]
    exact g2
  · rw [ha3]
    exact g5
  · rw [f2]
    exact f8
  · unfold TarExecute
    rw [hs1]
    rfl
  · intro hnone
    rw [f2]
    apply finish_trailer env.lib s1sim
    · rw [serveAll_closed]
      rfl
    · rw [← f3, hnone]

/-- C8 on the scenario bucket with the toy compressor: the complete run with compression
and the one without received the same records with the same timestamp, and the
compressed sink decompresses to the uncompressed one. -/
theorem compressed_output_decompresses_to_uncompressed_witness :
    toyGz.gunzip
        (run scenarioEnv (tarBucket scenarioEnv openSink true 0) scenarioSched).tarIo.w.w.data
      = some
        (run scenarioEnv (tarBucket scenarioEnv openSink false 0) scenarioSched).tarIo.w.w.data ∧
    (run scenarioEnv (tarBucket scenarioEnv openSink true 0) scenarioSched).tarIo.w.w.data.length
      = 1555 ∧
    (run scenarioEnv (tarBucket scenarioEnv openSink false 0) scenarioSched).tarIo.w.w.data.length
      = 1554 :=
  ⟨(compressed_output_decompresses_to_uncompressed scenarioEnv openSink 0 0 _ _ none none
      toyGz_lawful ⟨rfl, rfl, rfl⟩
      (reachable_run scenarioEnv scenarioSched _ _ Reachable.start)
      (reachable_run scenarioEnv scenarioSched _ _ Reachable.start)
      (by decide) (by decide) (by decide) (by decide)).2.1,
    by decide, by decide⟩

/-- C9. In every state of every run of `tarBucket`, whatever the store answers: no
record is received and no header written before `modstamp` is captured; once captured,
`modstamp` never changes, and it is the clock reading of the move that captured it;
the headers written are, in order, headers of records handed over, so each has the
Name and the Size of a record handed over; and ModTime, ChangeTime and AccessTime of
every header equal `modstamp`, so any two entries carry the same timestamp. -/
theorem headers_carry_the_captured_timestamp (env : Env) (w : Sink) (compress : Bool)
    (t0 : Time) (s : State) (hs : Reachable env (tarBucket env w compress t0) s) :
    (s.modstamp = none → s.handed = [] ∧ s.tarIo.entries = []) ∧
    (∀ a s2, s.modstamp = none → step env s a = some s2 →
      s2.modstamp = none ∨ s2.modstamp = some s.now) ∧
    (∀ t, s.modstamp = some t →
      (∀ s2, Reachable env s s2 → s2.modstamp = some t) ∧
      List.Sublist s.tarIo.headers (s.handed.map (headerOf t)) ∧
      (∀ e ∈ s.tarIo.entries, ∃ fi ∈ s.handed,
        e.hdr.Name = fi.Name ∧ e.hdr.Size = fi.Size ∧
        e.hdr.ModTime = t ∧ e.hdr.ChangeTime = t ∧ e.hdr.AccessTime = t)) ∧
    (∀ e1 ∈ s.tarIo.entries, ∀ e2 ∈ s.tarIo.entries,
      e1.hdr.ModTime = e2.hdr.ModTime ∧ e1.hdr.ChangeTime = e2.hdr.ModTime ∧
      e1.hdr.AccessTime = e2.hdr.ModTime) := by
  have hi : NameInv s := nameInv_reachable (nameInv_tarBucket env w compress t0) hs
  refine ⟨hi.unstamped, ?_, ?_, ?_⟩
  · intro a s2 hm hstep
    exact (modstamp_step hstep).2 hm
  · intro t ht
    refine ⟨fun s2 h2 => modstamp_reachable h2 t ht, hi.headers t ht, ?_⟩
    intro e he
    obtain ⟨fi, h1, h2⟩ := entry_of_headers (hi.headers t ht) e he
    refine ⟨fi, h1, ?_⟩
    rw [h2]
    exact ⟨rfl, rfl, rfl, rfl, rfl⟩
  · intro e1 he1 e2 he2
    cases hm : s.modstamp with
    | none =>
      rw [(hi.unstamped hm).2] at he1
      cases he1
    | some t =>
      obtain ⟨f1, _, h1⟩ := entry_of_headers (hi.headers t hm) e1 he1
      obtain ⟨f2, _, h2⟩ := entry_of_headers (hi.headers t hm) e2 he2
      rw [h1, h2]
      exact ⟨rfl, rfl, rfl⟩

/-- C9 on the scenario bucket: the run captures `modstamp` at clock reading 5 and ends at
reading 24, and both headers carry 5 in all three timestamp fields. -/
theorem headers_carry_the_captured_timestamp_witness :
    (run scenarioEnv (tarBucket scenarioEnv openSink false 0) scenarioSched).now = 24 ∧
    (run scenarioEnv (tarBucket scenarioEnv openSink false 0) scenarioSched).modstamp
      = some 5 ∧
    ∀ e ∈ (run scenarioEnv (tarBucket scenarioEnv openSink false 0) scenarioSched).tarIo.entries,
      ∃ fi ∈ (run scenarioEnv (tarBucket scenarioEnv openSink false 0) scenarioSched).handed,
        e.hdr.Name = fi.Name ∧ e.hdr.Size = fi.Size ∧
        e.hdr.ModTime = 5 ∧ e.hdr.ChangeTime = 5 ∧ e.hdr.AccessTime = 5 :=
  ⟨by decide, by decide,
    ((headers_carry_the_captured_timestamp scenarioEnv openSink false 0 _
      (reachable_run scenarioEnv scenarioSched _ _ Reachable.start)).2.2.1 5
        (by decide)).2.2⟩

/-- C10 does not hold of the code: on the bucket with the single key "k" whose first fetch fails
with "EOF", `listBucket` sends "k", sees the short page and closes the key queue; a
worker then receives "k", its fetch fails, and its `workChan <- key` is a send on the
closed queue, which panics. -/
theorem requeue_after_close_panics :
    (run (flakyEnv none) (tarBucket (flakyEnv none) openSink false 0)
        [.lister, .lister, .lister, .main, .worker 0, .worker 0]).workClosed = true ∧
    (run (flakyEnv none) (tarBucket (flakyEnv none) openSink false 0)
        [.lister, .lister, .lister, .main, .worker 0, .worker 0]).workers[0]?
      = some (.requeue "k" none) ∧
    (run (flakyEnv none) (tarBucket (flakyEnv none) openSink false 0)
        [.lister, .lister, .lister, .main, .worker 0, .worker 0, .worker 0]).status
      = .panicked "send on closed channel" := by
  decide

end Tarsync
